import Mathlib

/-!
# Zutty glyph atlas builder and GPU pipeline controller

A shallow embedding of `src/font.cc` (class `Font`) and `src/charvdev.cc`
(class `CharVdev` and the file-local helper `setupAtlasMappingTexture`).

Conventions of the embedding:

* C++ `int` values are `Int`, unsigned values and sizes are `Nat`.  The
  widths of the data members (`px`, `py`, `nx`, `ny`, `baseline`, ...) are
  declared in `font.h` / `charvdev.h`, which are not among the sources, so the
  members are unbounded naturals; where the source itself fixes a width
  (`uint16_t` parameters, `uint32_t` and `uint8_t` locals) the narrowing is
  written out with `%`.
* Memory that the code addresses through raw pointers (the atlas buffer and a
  glyph bitmap) is a function from offsets to bytes; every store and load is
  also recorded in an access log, so that bounds can be stated.
* A `throw` is `Except.error`, a failed `assert` is `none`.
* `while` loops take fuel and return `none` when it runs out.
-/

namespace Zutty

/-! ## `Font::load`: atlas geometry (font.cc 122-159) -/

/-- The balancing loop of `Font::load` (font.cc 129-135):
`while ((unsigned) nx * ny < n_glyphs) { if (px * nx < py * ny) ++nx; else ++ny; }`.
Each unit of fuel pays for one evaluation of the loop condition. -/
def balanceLoop : Nat → Nat → Nat → Nat → Nat → Nat → Option (Nat × Nat)
  | 0, _, _, _, _, _ => none
  | fuel + 1, n_glyphs, px, py, nx, ny =>
    if nx * ny < n_glyphs then
      if px * nx < py * ny then
        balanceLoop fuel n_glyphs px py (nx + 1) ny
      else
        balanceLoop fuel n_glyphs px py nx (ny + 1)
    else
      some (nx, ny)

/-- The check that follows the loop (font.cc 137-143): the geometry is
rejected when a coordinate does not fit a byte. -/
def checkGeometry (g : Nat × Nat) : Except String (Nat × Nat) :=
  if g.1 > 255 ∨ g.2 > 255 then
    Except.error "Impossible atlas geometry"
  else
    Except.ok g

/-- The geometry block of `Font::load` from given starting values of `nx` and
`ny`: the loop, then the check.  `none`: the loop has not finished within the
fuel. -/
def atlasGeometryFrom (fuel n_glyphs px py nx0 ny0 : Nat) :
    Option (Except String (Nat × Nat)) :=
  (balanceLoop fuel n_glyphs px py nx0 ny0).map checkGeometry

/-- The starting values of font.cc 124-128.  `total_pixels` is an unsigned
32-bit product widened afterwards.  `side` is the `double` square root; the
quotients `side / px`, `side / py` are truncated on assignment to the
integer members, and `⌊√t / p⌋ = ⌊⌊√t⌋ / p⌋` for integers `t`, `p ≥ 1`. -/
def initialGeometry (num_glyphs px py : Nat) : Nat × Nat :=
  let n_glyphs := num_glyphs + 1
  let total_pixels := (n_glyphs * px * py) % 2 ^ 32
  let side := Nat.sqrt total_pixels
  (side / px, side / py)

/-- The geometry block of `Font::load` for a primary font with `num_glyphs`
loadable glyphs and cell size `px`×`py`. -/
def atlasGeometry (fuel num_glyphs px py : Nat) : Option (Except String (Nat × Nat)) :=
  atlasGeometryFrom fuel (num_glyphs + 1) px py
    (initialGeometry num_glyphs px py).1 (initialGeometry num_glyphs px py).2

/-- Number of loop tests still ahead of the balancing loop, as a bound. -/
def balanceMeasure (n_glyphs nx ny : Nat) : Nat :=
  2 * (n_glyphs - nx * ny) + (if nx = 0 then 1 else 0) + (if ny = 0 then 1 else 0)

/-! ## `CharVdev`: the GPU pipeline controller (charvdev.cc) -/

/-- A grid position (`Point` of the controller's header). -/
structure Point where
  x : Nat
  y : Nat
  deriving DecidableEq, Repr

/-- A selection rectangle: top-left and bottom-right grid positions and the
rectangular-mode flag. -/
structure Rect where
  tl : Point
  br : Point
  rectangular : Bool
  deriving DecidableEq, Repr

/-- Modelled from the spec: `Point::operator<`, which `std::min` and `std::max`
use in `setSelection`, is declared in a header that is not among the sources.
Points are ordered row-major: by row `y` first, then by column `x`. -/
def Point.lt (a b : Point) : Bool :=
  decide (a.y < b.y) || (decide (a.y = b.y) && decide (a.x < b.x))

/-- The C++ `std::min (a, b)`: `(b < a) ? b : a`. -/
def Point.stdMin (a b : Point) : Point :=
  if Point.lt b a then b else a

/-- The C++ `std::max (a, b)`: `(a < b) ? b : a`. -/
def Point.stdMax (a b : Point) : Point :=
  if Point.lt a b then b else a

/-- The OpenGL calls of the modelled methods that carry data, in the order
they are issued. -/
inductive GLCall where
  | viewport (x y w h : Int)
  | uniform2fViewPixels (w h : Int)
  | uniform2iSizeChars (cols rows : Nat)
  | texStorage2DOutput (w h : Int)
  | bufferDataText (n_items : Nat)
  | uniform4iSelectRect (tlx tly brx bry : Nat)
  | uniform1iSelectRectMode (rectangular : Bool)
  | uniform2iSelectDamage (damageStart damageEnd : Nat)
  | mapBufferRange (n_cells : Nat)
  | unmapBuffer
  | dispatchCompute (cols rows : Nat)
  | drawArrays
  deriving DecidableEq, Repr

/-- The state of a `CharVdev`.  `cells` is the pointer member (`0` is
`nullptr`); `prev` is the function-local `static Rect prev` of `setSelection`;
`border` is `opts.border`; `gl` logs the OpenGL calls; `openMappings` counts
the live `Mapping` objects (constructed and not yet destroyed). -/
structure CharVdev where
  px : Nat
  py : Nat
  border : Nat
  pxWidth : Nat
  pxHeight : Nat
  nCols : Nat
  nRows : Nat
  cells : Nat
  prev : Rect
  gl : List GLCall
  openMappings : Nat
  deriving DecidableEq, Repr

/-- A `CharVdev::Mapping`: the grid size it was created with; its `cells`
member is a reference to the controller's `cells`. -/
structure Mapping where
  nCols : Nat
  nRows : Nat
  deriving DecidableEq, Repr

/-- The grid size of `CharVdev::resize` (charvdev.cc 262-263):
`std::max (1, (pxSize - 2 * opts.border) / cellSize)`, in `int` arithmetic with
division truncating towards zero. -/
def gridSize (pxSize border cellSize : Nat) : Int :=
  max 1 (Int.tdiv ((pxSize : Int) - 2 * (border : Int)) (cellSize : Int))

/-- The method `CharVdev::resize (uint16_t pxWidth_, uint16_t pxHeight_)`
(charvdev.cc 252-291). -/
def CharVdev.resize (s : CharVdev) (pxWidth_ pxHeight_ : Nat) : Option (Bool × CharVdev) :=
  if s.cells ≠ 0 then none
  else if s.pxWidth = pxWidth_ ∧ s.pxHeight = pxHeight_ then some (false, s)
  else
    let nCols := (gridSize pxWidth_ s.border s.px).toNat
    let nRows := (gridSize pxHeight_ s.border s.py).toNat
    let viewWidth : Int := (nCols : Int) * (s.px : Int)
    let viewHeight : Int := (nRows : Int) * (s.py : Int)
    some (true,
      { s with
        pxWidth := pxWidth_
        pxHeight := pxHeight_
        nCols := nCols
        nRows := nRows
        gl := s.gl ++
          [GLCall.viewport (s.border : Int)
              ((pxHeight_ : Int) - viewHeight - (s.border : Int)) viewWidth viewHeight,
           GLCall.uniform2fViewPixels viewWidth viewHeight,
           GLCall.uniform2iSizeChars nCols nRows,
           GLCall.texStorage2DOutput viewWidth viewHeight,
           GLCall.bufferDataText ((nRows * nCols) % 2 ^ 32)] })

/-- The damage span of `CharVdev::setSelection` (charvdev.cc 312-314); the two
ends are `uint32_t`. -/
def selectionDamage (nCols : Nat) (prev sel : Rect) : Nat × Nat :=
  let damage_tl := Point.stdMin sel.tl prev.tl
  let damage_br := Point.stdMax sel.br prev.br
  ((nCols * damage_tl.y + damage_tl.x) % 2 ^ 32,
   (nCols * damage_br.y + damage_br.x + 1) % 2 ^ 32)

/-- The method `CharVdev::setSelection (const Rect& sel)` (charvdev.cc 308-321). -/
def CharVdev.setSelection (s : CharVdev) (sel : Rect) : CharVdev :=
  let damage := selectionDamage s.nCols s.prev sel
  { s with
    prev := sel
    gl := s.gl ++
      [GLCall.uniform4iSelectRect sel.tl.x sel.tl.y sel.br.x sel.br.y,
       GLCall.uniform1iSelectRectMode sel.rectangular,
       GLCall.uniform2iSelectDamage damage.1 damage.2] }

/-- The method `CharVdev::draw ()` (charvdev.cc 330-366). -/
def CharVdev.draw (s : CharVdev) : Option CharVdev :=
  if s.cells ≠ 0 then none
  else some { s with gl := s.gl ++ [GLCall.dispatchCompute s.nCols s.nRows, GLCall.drawArrays] }

/-- The method `CharVdev::getMapping ()` (charvdev.cc 383-393).  `view` is the
pointer that `glMapBufferRange` returns. -/
def CharVdev.getMapping (s : CharVdev) (view : Nat) : Option (Mapping × CharVdev) :=
  if s.cells ≠ 0 then none
  else
    some ({ nCols := s.nCols, nRows := s.nRows },
      { s with
        cells := view
        gl := s.gl ++ [GLCall.mapBufferRange (s.nRows * s.nCols)]
        openMappings := s.openMappings + 1 })

/-- The destructor `CharVdev::Mapping::~Mapping ()` (charvdev.cc 375-381), run
when a `Mapping` is released. -/
def CharVdev.releaseMapping (s : CharVdev) : Option CharVdev :=
  if s.cells = 0 then none
  else
    some { s with
      cells := 0
      gl := s.gl ++ [GLCall.unmapBuffer]
      openMappings := s.openMappings - 1 }

/-- The controller operations of a client. -/
inductive Op where
  | getMapping (view : Nat)
  | releaseMapping
  | draw
  | resize (pxWidth_ pxHeight_ : Nat)
  deriving DecidableEq, Repr

/-- One operation; `none` when an assertion of the operation fails. -/
def CharVdev.step (s : CharVdev) : Op → Option CharVdev
  | Op.getMapping view => (s.getMapping view).map Prod.snd
  | Op.releaseMapping => s.releaseMapping
  | Op.draw => s.draw
  | Op.resize w h => (s.resize w h).map Prod.snd

/-- A sequence of operations, each of which succeeds. -/
def CharVdev.run : CharVdev → List Op → Option CharVdev
  | s, [] => some s
  | s, op :: ops => (s.step op).bind (fun s' => CharVdev.run s' ops)

/-- Row-major order of grid positions, non-strict. -/
def Point.rowMajorLE (a b : Point) : Prop :=
  a.y < b.y ∨ (a.y = b.y ∧ a.x ≤ b.x)

/-! ## Atlas positions and the mapping image (charvdev.cc 101-145) -/

/-- An atlas position (`Font::AtlasPos`): the glyph-grid column `x` and row `y`,
one byte each. -/
structure AtlasPos where
  x : Nat
  y : Nat
  deriving DecidableEq, Repr

/-- The atlas map of a font (`Font::AtlasMap`, a `std::map` from codepoint to
`AtlasPos`), as the list of its entries in iteration order. -/
abbrev AtlasMap := List (Nat × AtlasPos)

/-- The lookup `atlasMap.find (c)`: `none` stands for `end ()`. -/
def AtlasMap.find (m : AtlasMap) (c : Nat) : Option AtlasPos :=
  List.lookup c m

/-- The two stores `img [2 * k] = apos.x; img [2 * k + 1] = apos.y`
(charvdev.cc 132-133 and 139-140).  A store past the end of the image, which
the code makes for no key up to `0xFFFF`, would leave the list as it is. -/
def putAtlasPos (img : List Nat) (k : Nat) (apos : AtlasPos) : List Nat :=
  (img.set (2 * k) apos.x).set (2 * k + 1) apos.y

/-- The default position of codepoint `k` (charvdev.cc 129-131). -/
def defaultAtlasPos (apRC apMG : AtlasPos) (k : Nat) : AtlasPos :=
  if (k ≥ 0xd800 ∧ k < 0xe000) ∨ k ≥ 0xfffe then apRC else apMG

/-- The pre-fill loop `for (int k = 0; k < n; ++k)` of charvdev.cc 127-134 (there
`n` is `256 * 256`). -/
def fillDefaults (apRC apMG : AtlasPos) (n : Nat) (img : List Nat) : List Nat :=
  (List.range n).foldl (fun acc k => putAtlasPos acc k (defaultAtlasPos apRC apMG k)) img

/-- The loop over the entries of the font's atlas map (charvdev.cc 137-141). -/
def fillSupported (m : AtlasMap) (img : List Nat) : List Nat :=
  m.foldl (fun acc e => putAtlasPos acc e.1 e.2) img

/-- The image that `setupAtlasMappingTexture` builds and uploads
(charvdev.cc 101-145).  The two marker codepoints
`zutty::Unicode_Replacement_Character` and `zutty::Missing_Glyph_Marker` are
constants of a header that is not among the sources, hence parameters. -/
def setupAtlasMappingTexture (Unicode_Replacement_Character Missing_Glyph_Marker : Nat)
    (fntAtlasMap : AtlasMap) : List Nat :=
  let atlasMap := List.replicate (2 * 256 * 256) 0
  let apRC : AtlasPos :=
    match AtlasMap.find fntAtlasMap Unicode_Replacement_Character with
    | some p => p
    | none => { x := 0, y := 0 }
  let apMG : AtlasPos :=
    match AtlasMap.find fntAtlasMap Missing_Glyph_Marker with
    | some p => p
    | none => { x := 0, y := 0 }
  fillSupported fntAtlasMap (fillDefaults apRC apMG (256 * 256) atlasMap)

/-! ## `Font`: glyph blitting and loading (font.cc) -/

/-- Bytes addressed relative to a base pointer (`atlasBuf.data ()`, or the
`buffer` of a glyph bitmap). -/
abbrev Mem := Int → Nat

/-- The atlas buffer during a blit, with the log of the accesses made: the
offsets stored to in the atlas buffer and the offsets loaded from the glyph
bitmap, most recent first. -/
structure Blit where
  mem : Mem
  stores : List Int
  loads : List Int

/-- A store `atlasBuf.data () [i] = v`. -/
def Blit.store (b : Blit) (i : Int) (v : Nat) : Blit :=
  { b with mem := Function.update b.mem i v, stores := i :: b.stores }

/-- A load from the glyph bitmap at offset `i`; the value is read by the
caller. -/
def Blit.load (b : Blit) (i : Int) : Blit :=
  { b with loads := i :: b.loads }

/-- The loop `for (int i = lo; i < hi; ++i) body` acting on a state. -/
def forLoop {σ : Type} (lo hi : Int) (body : Int → σ → σ) (s : σ) : σ :=
  (List.range (hi - lo).toNat).foldl (fun (acc : σ) (i : Nat) => body (lo + (i : Int)) acc) s

/-- The value of `FT_PIXEL_MODE_MONO` in FreeType. -/
def FT_PIXEL_MODE_MONO : Nat := 1

/-- The value of `FT_PIXEL_MODE_GRAY` in FreeType. -/
def FT_PIXEL_MODE_GRAY : Nat := 2

/-- The fields of an `FT_Bitmap` that `loadFace` uses. -/
structure Bitmap where
  rows : Nat
  width : Nat
  pitch : Int
  buffer : Mem
  pixel_mode : Nat

/-- The fields of `face->glyph` that `loadFace` uses after `FT_Load_Char`. -/
structure GlyphSlot where
  bitmap : Bitmap
  bitmap_left : Int
  bitmap_top : Int

/-- A font face as `Font` sees it: the charcodes that `FT_Get_First_Char` and
`FT_Get_Next_Char` enumerate, the glyph that `FT_Load_Char` renders for a
charcode (`none`: it reports an error), and the outcome of the size selection
of `loadFixed` / `loadScaled`, which depends on the font mode and, for overlay
and double-width fonts, on the expected cell size: the exception thrown, or
the cell size and baseline `(px, py, baseline)` determined from the face. -/
structure Face where
  charcodes : List Nat
  loadChar : Nat → Option GlyphSlot
  sizing : Bool → Bool → Nat → Nat → Except String (Nat × Nat × Nat)

/-- The constants and the C library function that `Font` takes from outside:
the two marker codepoints and `wcwidth`. -/
structure Env where
  Missing_Glyph_Marker : Nat
  Unicode_Replacement_Character : Nat
  wcwidth : Nat → Int

/-- The data members of a `Font` that the modelled methods use. -/
structure Font where
  overlay : Bool
  dwidth : Bool
  px : Nat
  py : Nat
  baseline : Nat
  nx : Nat
  ny : Nat
  atlasBuf : Mem
  atlasMap : AtlasMap
  atlas_seq : Nat

/-- The overlay branch of `loadFace` (font.cc 344-355): zero the glyph cell. -/
def clearCell (nx px py : Nat) (atlas_glyph_offset : Int) (b : Blit) : Blit :=
  forLoop 0 (py : Int) (fun j b =>
    let atl_dst_row : Int := atlas_glyph_offset + j * (nx : Int) * (px : Int)
    (forLoop 0 (px : Int)
      (fun _ (st : Int × Blit) => (st.1 + 1, st.2.store st.1 0))
      (atl_dst_row, b)).2) b

/-- The state of the inner loop of the `FT_PIXEL_MODE_MONO` case: the two row
pointers, the current source byte, and the atlas buffer. -/
structure MonoState where
  bmp_src_row : Int
  atl_dst_row : Int
  byte : Nat
  blit : Blit

/-- The body of the inner loop of the `FT_PIXEL_MODE_MONO` case
(font.cc 378-382); `byte` is a `uint8_t`. -/
def monoStep (buffer : Mem) (sw : Int) (k : Int) (st : MonoState) : MonoState :=
  let st1 : MonoState :=
    if k % 8 = 0 then
      { st with
        byte := buffer st.bmp_src_row
        bmp_src_row := st.bmp_src_row + 1
        blit := st.blit.load st.bmp_src_row }
    else st
  let st2 : MonoState :=
    if k ≥ sw then
      { st1 with
        blit := st1.blit.store st1.atl_dst_row (if st1.byte &&& 0x80 ≠ 0 then 0xFF else 0)
        atl_dst_row := st1.atl_dst_row + 1 }
    else st1
  { st2 with byte := (st2.byte <<< 1) % 256 }

/-- The `FT_PIXEL_MODE_MONO` case of `loadFace` (font.cc 370-385). -/
def blitMono (bmp : Bitmap) (nx px : Nat) (sh sw bh bw atlas_write_offset : Int)
    (b : Blit) : Blit :=
  forLoop sh bh (fun j b =>
    let bmp_src_row : Int := j * bmp.pitch
    let atl_dst_row : Int := atlas_write_offset + j * (nx : Int) * (px : Int)
    (forLoop 0 bw (monoStep bmp.buffer sw)
      { bmp_src_row := bmp_src_row, atl_dst_row := atl_dst_row, byte := 0, blit := b }).blit) b

/-- The state of the inner loop of the `FT_PIXEL_MODE_GRAY` case: the two row
pointers and the atlas buffer. -/
structure GrayState where
  bmp_src_row : Int
  atl_dst_row : Int
  blit : Blit

/-- The body of the inner loop of the `FT_PIXEL_MODE_GRAY` case (font.cc 393):
`*atl_dst_row++ = *bmp_src_row++`. -/
def grayStep (buffer : Mem) (st : GrayState) : GrayState :=
  { bmp_src_row := st.bmp_src_row + 1
    atl_dst_row := st.atl_dst_row + 1
    blit := (st.blit.load st.bmp_src_row).store st.atl_dst_row (buffer st.bmp_src_row) }

/-- The `FT_PIXEL_MODE_GRAY` case of `loadFace` (font.cc 386-396). -/
def blitGray (bmp : Bitmap) (nx px : Nat) (sh sw bh bw atlas_write_offset : Int)
    (b : Blit) : Blit :=
  forLoop 0 bh (fun j b =>
    let bmp_src_row : Int := (j + sh) * bmp.pitch + sw
    let atl_dst_row : Int := atlas_write_offset + j * (nx : Int) * (px : Int)
    (forLoop 0 bw (fun _ st => grayStep bmp.buffer st)
      { bmp_src_row := bmp_src_row, atl_dst_row := atl_dst_row, blit := b }).blit) b

/-- The placement that `loadFace` computes for a glyph (font.cc 325-342). -/
structure Placement where
  dx : Int
  dy : Int
  sh : Int
  sw : Int
  bh : Int
  bw : Int
  atlas_glyph_offset : Int
  atlas_write_offset : Int

/-- The placement computation of `loadFace` (font.cc 325-342). -/
def Font.placement (f : Font) (glyph : GlyphSlot) (apos : AtlasPos) : Placement :=
  let dx0 : Int := glyph.bitmap_left
  let dy0 : Int := if f.baseline > 0 then (f.baseline : Int) - glyph.bitmap_top else 0
  let sh : Int := max 0 (-dy0)
  let sw : Int := max 0 (-dx0)
  let dx : Int := dx0 + sw
  let dy : Int := dy0 + sh
  let bh : Int := min ((glyph.bitmap.rows : Int) - sh) ((f.py : Int) - dy)
  let bw : Int := min ((glyph.bitmap.width : Int) - sw) ((f.px : Int) - dx)
  let atlas_row_offset : Int := (f.nx : Int) * (f.px : Int) * (f.py : Int)
  let atlas_glyph_offset : Int := (apos.y : Int) * atlas_row_offset + (apos.x : Int) * (f.px : Int)
  let atlas_write_offset : Int := atlas_glyph_offset + (f.nx : Int) * (f.px : Int) * dy + dx
  { dx := dx, dy := dy, sh := sh, sw := sw, bh := bh, bw := bw,
    atlas_glyph_offset := atlas_glyph_offset, atlas_write_offset := atlas_write_offset }

/-- The body of `Font::loadFace (face, c, apos)` (font.cc 316-402) on the atlas
buffer, with the access log of this call.  The texts of the two exceptions
are given without the number appended to them. -/
def Font.blitFace (f : Font) (face : Face) (c : Nat) (apos : AtlasPos) : Except String Blit :=
  match face.loadChar c with
  | none => Except.error "FreeType: Failed to load glyph for char"
  | some glyph =>
    let p := f.placement glyph apos
    let bmp := glyph.bitmap
    let b0 : Blit := { mem := f.atlasBuf, stores := [], loads := [] }
    let b1 : Blit := if f.overlay then clearCell f.nx f.px f.py p.atlas_glyph_offset b0 else b0
    if bmp.pixel_mode = FT_PIXEL_MODE_MONO then
      Except.ok (blitMono bmp f.nx f.px p.sh p.sw p.bh p.bw p.atlas_write_offset b1)
    else if bmp.pixel_mode = FT_PIXEL_MODE_GRAY then
      Except.ok (blitGray bmp f.nx f.px p.sh p.sw p.bh p.bw p.atlas_write_offset b1)
    else
      Except.error "Unhandled pixel_type"

/-- The method `Font::loadFace (face, c, apos)` (font.cc 316-402). -/
def Font.loadFaceAt (f : Font) (face : Face) (c : Nat) (apos : AtlasPos) : Except String Font :=
  match f.blitFace face c apos with
  | Except.error e => Except.error e
  | Except.ok b => Except.ok { f with atlasBuf := b.mem }

/-- The assignment `atlasMap [c] = apos` on the ordered entries of the map. -/
def AtlasMap.assign : AtlasMap → Nat → AtlasPos → AtlasMap
  | [], c, apos => [(c, apos)]
  | (k, v) :: rest, c, apos =>
    if c < k then (c, apos) :: (k, v) :: rest
    else if c = k then (k, apos) :: rest
    else (k, v) :: AtlasMap.assign rest c apos

/-- The method `Font::loadFace (face, c)` (font.cc 305-314); `atlas_row` and
`atlas_col` are `uint8_t`. -/
def Font.loadFace (f : Font) (face : Face) (c : Nat) : Except String Font :=
  let atlas_row : Nat := (f.atlas_seq / f.nx) % 256
  let atlas_col : Nat := (((f.atlas_seq : Int) - (f.nx : Int) * (atlas_row : Int)) % 256).toNat
  let apos : AtlasPos := { x := atlas_col, y := atlas_row }
  match f.loadFaceAt face c apos with
  | Except.error e => Except.error e
  | Except.ok f1 =>
    Except.ok { f1 with atlasMap := AtlasMap.assign f1.atlasMap c apos, atlas_seq := f1.atlas_seq + 1 }

/-- The method `Font::isLoadableChar` (font.cc 60-74). -/
def Font.isLoadableChar (env : Env) (f : Font) (c : Nat) : Bool :=
  if c = env.Missing_Glyph_Marker then true
  else if c = env.Unicode_Replacement_Character then true
  else if c > 0xFFFF then false
  else (f.dwidth && decide (env.wcwidth c = 2)) || (!f.dwidth && decide (env.wcwidth c < 2))

/-- The second enumeration loop of `Font::load` (font.cc 161-181) over the
charcodes that remain. -/
def Font.loadGlyphs (env : Env) (face : Face) : List Nat → Font → Except String Font
  | [], f => Except.ok f
  | charcode :: rest, f =>
    if f.isLoadableChar env charcode then
      if f.overlay then
        match AtlasMap.find f.atlasMap charcode with
        | some apos =>
          match f.loadFaceAt face charcode apos with
          | Except.error e => Except.error e
          | Except.ok f1 => Font.loadGlyphs env face rest f1
        | none => Font.loadGlyphs env face rest f
      else
        match f.loadFace face charcode with
        | Except.error e => Except.error e
        | Except.ok f1 => Font.loadGlyphs env face rest f1
    else Font.loadGlyphs env face rest f

/-- The size selection of `Font::load` (font.cc 112-115), by its outcome:
an overlay font keeps `px`, `py` and `baseline`, a double-width font keeps
`px` and `py`, a primary font takes all three from the face. -/
def Font.selectSize (f : Font) (face : Face) : Except String Font :=
  match face.sizing f.overlay f.dwidth f.px f.py with
  | Except.error e => Except.error e
  | Except.ok (px, py, baseline) =>
    if f.overlay then Except.ok f
    else if f.dwidth then Except.ok { f with baseline := baseline }
    else Except.ok { f with px := px, py := py, baseline := baseline }

/-- The method `Font::load` (font.cc 76-185), once the face is open.  `none`:
the fuel given to the geometry loop has run out. -/
def Font.load (env : Env) (fuel : Nat) (f : Font) (face : Face) : Option (Except String Font) :=
  let num_glyphs := (face.charcodes.filter (fun c => f.isLoadableChar env c)).length
  match f.selectSize face with
  | Except.error e => some (Except.error e)
  | Except.ok f1 =>
    if f1.overlay then
      some (Font.loadGlyphs env face face.charcodes f1)
    else
      match atlasGeometry fuel num_glyphs f1.px f1.py with
      | none => none
      | some (Except.error e) => some (Except.error e)
      | some (Except.ok (nx, ny)) =>
        some (Font.loadGlyphs env face face.charcodes
          { f1 with nx := nx, ny := ny, atlasBuf := fun _ => 0 })

/-- The offset in the atlas buffer of the pixel in row `r`, column `c` of the
glyph cell at `apos`: the atlas is an image of `nx * px` by `ny * py` pixels
stored row by row, and the cell at `apos` starts at pixel column `apos.x * px`
and pixel row `apos.y * py`. -/
def Font.cellIndex (f : Font) (apos : AtlasPos) (r c : Nat) : Int :=
  (((apos.y * f.py + r) * (f.nx * f.px) + (apos.x * f.px + c) : Nat) : Int)

/-- The offsets of the atlas buffer that belong to the glyph cell at `apos`. -/
def Font.InCell (f : Font) (apos : AtlasPos) (i : Int) : Prop :=
  ∃ r c : Nat, r < f.py ∧ c < f.px ∧ i = f.cellIndex apos r c

/-- The number of bytes that the pixels of one bitmap row take: one per pixel
for gray, one per eight pixels for mono. -/
def Bitmap.rowBytes (bmp : Bitmap) : Nat :=
  if bmp.pixel_mode = FT_PIXEL_MODE_MONO then (bmp.width + 7) / 8 else bmp.width

/-- The offsets from `buffer` that hold pixels of the bitmap: byte `b` of row
`r` is at `r * pitch + b`. -/
def Bitmap.InBitmap (bmp : Bitmap) (i : Int) : Prop :=
  ∃ r b : Nat, r < bmp.rows ∧ b < bmp.rowBytes ∧ i = (r : Int) * bmp.pitch + (b : Int)

/-- The accesses of a blit stay within given sets of offsets: stores within `S`,
loads within `L`, and the buffer is as `m0` outside `S`. -/
def Blit.Confined (S L : Int → Prop) (m0 : Mem) (b : Blit) : Prop :=
  (∀ i ∈ b.stores, S i) ∧ (∀ i ∈ b.loads, L i) ∧ (∀ i, ¬ S i → b.mem i = m0 i)

/-- The byte of the atlas buffer at offset `i` after a blit, `none` when the
blit threw. -/
def atlasByte : Except String Blit → Int → Option Nat
  | Except.ok b, i => some (b.mem i)
  | Except.error _, _ => none

/-- An example font with cells of 8×2 pixels in a 2×2 grid, every byte of its
atlas buffer being 9, with glyphs for `A` and `B`. -/
def exampleFont (overlay : Bool) (baseline : Nat) : Font :=
  { overlay := overlay, dwidth := false, px := 8, py := 2, baseline := baseline,
    nx := 2, ny := 2, atlasBuf := fun _ => 9,
    atlasMap := [(65, ⟨1, 0⟩), (66, ⟨0, 1⟩)], atlas_seq := 3 }

/-- The bytes of an example bitmap: the byte at offset `i` is `255 - i`. -/
def exampleBytes : Mem := fun i => (255 - i).toNat

/-- An example face with the one charcode `A`, rendered as a bitmap of two rows
of eight pixels in the given pixel mode, with a pitch of eight bytes, the bytes
of `exampleBytes`, and the given bearings. -/
def exampleFace (pixel_mode : Nat) (bitmap_left bitmap_top : Int) : Face :=
  { charcodes := [65],
    loadChar := fun c =>
      if c = 65 then
        some { bitmap := { rows := 2, width := 8, pitch := 8, buffer := exampleBytes,
                           pixel_mode := pixel_mode },
               bitmap_left := bitmap_left, bitmap_top := bitmap_top }
      else none,
    sizing := fun _ _ _ _ => Except.ok (8, 2, 0) }

/-- An example environment: the markers are `0` and `0xFFFD`, and every
character is one column wide. -/
def exampleEnv : Env :=
  { Missing_Glyph_Marker := 0, Unicode_Replacement_Character := 0xFFFD, wcwidth := fun _ => 1 }

/-- An example environment whose `wcwidth` follows the C library on a few
ranges: `-1` for the control characters below 32, `0` for the combining
diacritical marks `0x300..0x36F`, `2` for the CJK ideographs `0x4E00..0x9FFF`,
`1` elsewhere. -/
def exampleWidthEnv : Env :=
  { Missing_Glyph_Marker := 0, Unicode_Replacement_Character := 0xFFFD,
    wcwidth := fun c =>
      if c < 32 then -1
      else if 0x300 ≤ c ∧ c < 0x370 then 0
      else if 0x4E00 ≤ c ∧ c < 0xA000 then 2
      else 1 }

/-- An example glyph: a bitmap of two rows of eight pixels in the given pixel
mode, with a pitch of eight bytes and the bytes of `exampleBytes`, and the
given bearings. -/
def exampleGlyph (pixel_mode : Nat) (bitmap_left bitmap_top : Int) : GlyphSlot :=
  { bitmap := { rows := 2, width := 8, pitch := 8, buffer := exampleBytes,
                pixel_mode := pixel_mode },
    bitmap_left := bitmap_left, bitmap_top := bitmap_top }

/-- An example face with the charcodes `A` and `B`, both rendered as the gray
example glyph without bearings. -/
def exampleFace2 : Face :=
  { charcodes := [65, 66],
    loadChar := fun c =>
      if c = 65 ∨ c = 66 then some (exampleGlyph FT_PIXEL_MODE_GRAY 0 0) else none,
    sizing := fun _ _ _ _ => Except.ok (8, 2, 0) }

/-- An example primary font before its glyphs are loaded: cells of 8×2 pixels
in a 2×2 grid, a zeroed atlas buffer, an empty atlas map, sequence number 1. -/
def exampleEmptyFont : Font :=
  { overlay := false, dwidth := false, px := 8, py := 2, baseline := 0,
    nx := 2, ny := 2, atlasBuf := fun _ => 0, atlasMap := [], atlas_seq := 1 }

/-! # Theorems -/

theorem balanceLoop_terminates (py : Nat) (hpy : 1 ≤ py) (n px : Nat) :
    ∀ (fuel nx ny : Nat), balanceMeasure n nx ny < fuel →
      ∃ rx ry, balanceLoop fuel n px py nx ny = some (rx, ry) ∧ n ≤ rx * ry := by
  intro fuel
  induction fuel with
  | zero => intro nx ny h; omega
  | succ fuel ih =>
    intro nx ny h
    unfold balanceLoop
    by_cases hc : nx * ny < n
    · rw [if_pos hc]
      by_cases hb : px * nx < py * ny
      · rw [if_pos hb]
        apply ih
        have hny : ny ≠ 0 := by
          rintro rfl
          simp at hb
        have hmul : (nx + 1) * ny = nx * ny + ny := by ring
        unfold balanceMeasure at h ⊢
        rw [hmul]
        simp only [hny, if_false, Nat.succ_ne_zero] at h ⊢
        split at h <;> omega
      · rw [if_neg hb]
        apply ih
        have hmul : nx * (ny + 1) = nx * ny + nx := by ring
        unfold balanceMeasure at h ⊢
        rw [hmul]
        by_cases hnx : nx = 0
        · subst hnx
          by_cases hny : ny = 0
          · subst hny
            simp at h ⊢
            omega
          · exfalso
            apply hb
            have : 0 < py * ny := Nat.mul_pos (by omega) (Nat.pos_of_ne_zero hny)
            simpa using this
        · simp only [hnx, if_false, Nat.succ_ne_zero] at h ⊢
          split at h <;> omega
    · rw [if_neg hc]
      exact ⟨nx, ny, rfl, by omega⟩

theorem gridSize_nat (w b p : Nat) (_hp : 1 ≤ p) :
    gridSize w b p = ((max 1 ((w - 2 * b) / p) : Nat) : Int) := by
  unfold gridSize
  by_cases hle : 2 * b ≤ w
  · have hcast : (w : Int) - 2 * (b : Int) = ((w - 2 * b : Nat) : Int) := by omega
    rw [hcast, ← Int.ofNat_tdiv]
    push_cast
    rfl
  · have hneg : (w : Int) - 2 * (b : Int) = -((2 * b - w : Nat) : Int) := by omega
    have hz : (w - 2 * b) / p = 0 := by
      have : w - 2 * b = 0 := by omega
      rw [this, Nat.zero_div]
    rw [hneg, Int.neg_tdiv, ← Int.ofNat_tdiv, hz]
    have h0 : (0 : Int) ≤ (((2 * b - w) / p : Nat) : Int) := Int.ofNat_nonneg _
    simp only [Nat.zero_le, max_eq_left, Nat.cast_one]
    omega

theorem gridSize_ediv (w b p : Nat) (hp : 1 ≤ p) :
    gridSize w b p = max 1 (((w : Int) - 2 * (b : Int)) / (p : Int)) := by
  unfold gridSize
  by_cases hle : 0 ≤ (w : Int) - 2 * (b : Int)
  · rw [Int.tdiv_eq_ediv hle (Int.ofNat_nonneg p)]
  · have hp0 : (0 : Int) < (p : Int) := by omega
    have h1 : ((w : Int) - 2 * (b : Int)) / (p : Int) < 0 := Int.ediv_neg' (by omega) hp0
    have hneg : (w : Int) - 2 * (b : Int) = -((2 * b - w : Nat) : Int) := by omega
    have h2 : Int.tdiv ((w : Int) - 2 * (b : Int)) (p : Int) ≤ 0 := by
      rw [hneg, Int.neg_tdiv, ← Int.ofNat_tdiv]
      have h0 : (0 : Int) ≤ (((2 * b - w) / p : Nat) : Int) := Int.ofNat_nonneg _
      omega
    rw [max_eq_left (by omega), max_eq_left (by omega)]

/-- C6: with no mapping open, cell size `px, py ≥ 1` and a pixel size `(w, h)`
different from the stored one, `resize (w, h)` returns `true`, stores `(w, h)`
and sets `nCols = max (1, (w - 2 * border) / px)` and
`nRows = max (1, (h - 2 * border) / py)`, the division being the integer
division of C (truncating), which under the `max` agrees with the flooring
one; with `px = 8`, `py = 16`, `border = 2`, `resize (800, 600)` gives
`nCols = 99` and `nRows = 37`. -/
theorem resize_gridSize (s : CharVdev) (w h : Nat) (hcells : s.cells = 0)
    (hdiff : ¬ (s.pxWidth = w ∧ s.pxHeight = h)) (hpx : 1 ≤ s.px) (hpy : 1 ≤ s.py) :
    ∃ s', s.resize w h = some (true, s') ∧ s'.pxWidth = w ∧ s'.pxHeight = h ∧
      (s'.nCols : Int) = max 1 (Int.tdiv ((w : Int) - 2 * (s.border : Int)) (s.px : Int)) ∧
      (s'.nRows : Int) = max 1 (Int.tdiv ((h : Int) - 2 * (s.border : Int)) (s.py : Int)) ∧
      (s'.nCols : Int) = max 1 (((w : Int) - 2 * (s.border : Int)) / (s.px : Int)) ∧
      (s'.nRows : Int) = max 1 (((h : Int) - 2 * (s.border : Int)) / (s.py : Int)) ∧
      (s.px = 8 → s.py = 16 → s.border = 2 → w = 800 → h = 600 →
        s'.nCols = 99 ∧ s'.nRows = 37) := by
  have hc : (gridSize w s.border s.px).toNat = max 1 ((w - 2 * s.border) / s.px) := by
    rw [gridSize_nat w s.border s.px hpx, Int.toNat_ofNat]
  have hr : (gridSize h s.border s.py).toNat = max 1 ((h - 2 * s.border) / s.py) := by
    rw [gridSize_nat h s.border s.py hpy, Int.toNat_ofNat]
  unfold CharVdev.resize
  rw [if_neg (by simpa using hcells), if_neg hdiff]
  refine ⟨_, rfl, rfl, rfl, ?_, ?_, ?_, ?_, ?_⟩
  · show (((gridSize w s.border s.px).toNat : Nat) : Int) = _
    rw [hc, ← gridSize_nat w s.border s.px hpx]
    rfl
  · show (((gridSize h s.border s.py).toNat : Nat) : Int) = _
    rw [hr, ← gridSize_nat h s.border s.py hpy]
    rfl
  · show (((gridSize w s.border s.px).toNat : Nat) : Int) = _
    rw [hc, ← gridSize_nat w s.border s.px hpx, gridSize_ediv w s.border s.px hpx]
  · show (((gridSize h s.border s.py).toNat : Nat) : Int) = _
    rw [hr, ← gridSize_nat h s.border s.py hpy, gridSize_ediv h s.border s.py hpy]
  · intro h1 h2 h3 h4 h5
    constructor
    · show (gridSize w s.border s.px).toNat = 99
      rw [hc, h1, h3, h4]
      decide
    · show (gridSize h s.border s.py).toNat = 37
      rw [hr, h2, h3, h5]
      decide

/-- A freshly constructed controller for an 8×16 font with a border of 2
pixels, resized to 800×600. -/
theorem resize_gridSize_witness :
    ∃ s', (CharVdev.mk 8 16 2 0 0 0 0 0 ⟨⟨0, 0⟩, ⟨0, 0⟩, false⟩ [] 0).resize 800 600
        = some (true, s') ∧ s'.pxWidth = 800 ∧ s'.pxHeight = 600 ∧
      (s'.nCols : Int) = max 1 (Int.tdiv ((800 : Nat) - 2 * ((2 : Nat) : Int)) ((8 : Nat) : Int)) ∧
      (s'.nRows : Int) = max 1 (Int.tdiv ((600 : Nat) - 2 * ((2 : Nat) : Int)) ((16 : Nat) : Int)) ∧
      (s'.nCols : Int) = max 1 ((((800 : Nat) : Int) - 2 * ((2 : Nat) : Int)) / ((8 : Nat) : Int)) ∧
      (s'.nRows : Int) = max 1 ((((600 : Nat) : Int) - 2 * ((2 : Nat) : Int)) / ((16 : Nat) : Int)) ∧
      ((8 : Nat) = 8 → (16 : Nat) = 16 → (2 : Nat) = 2 → (800 : Nat) = 800 → (600 : Nat) = 600 →
        s'.nCols = 99 ∧ s'.nRows = 37) :=
  resize_gridSize (CharVdev.mk 8 16 2 0 0 0 0 0 ⟨⟨0, 0⟩, ⟨0, 0⟩, false⟩ [] 0) 800 600
    (by decide) (by decide) (by decide) (by decide)

/-- C7: with no mapping open, the second of two calls `resize (w, h)` in a row
returns `false` and leaves the controller exactly as the first call left it:
stored pixel size, grid size and the log of OpenGL calls, in which the
reallocations of the output image and of the cell buffer are recorded. -/
theorem resize_twice (s : CharVdev) (w h : Nat) (hcells : s.cells = 0) :
    ∃ r s1, s.resize w h = some (r, s1) ∧ s1.resize w h = some (false, s1) := by
  have hc : ¬ s.cells ≠ 0 := by simpa using hcells
  by_cases hsame : s.pxWidth = w ∧ s.pxHeight = h
  · refine ⟨false, s, ?_, ?_⟩ <;>
    · unfold CharVdev.resize
      rw [if_neg hc, if_pos hsame]
  · have h1 : ∃ s1, s.resize w h = some (true, s1) ∧ s1.cells = s.cells ∧
        s1.pxWidth = w ∧ s1.pxHeight = h := by
      unfold CharVdev.resize
      rw [if_neg hc, if_neg hsame]
      exact ⟨_, rfl, rfl, rfl, rfl⟩
    obtain ⟨s1, hs1, hc1, hw1, hh1⟩ := h1
    refine ⟨true, s1, hs1, ?_⟩
    unfold CharVdev.resize
    rw [if_neg (by rw [hc1]; exact hc), if_pos ⟨hw1, hh1⟩]

/-- A freshly constructed controller resized twice to 800×600. -/
theorem resize_twice_witness :
    ∃ r s1, (CharVdev.mk 8 16 2 0 0 0 0 0 ⟨⟨0, 0⟩, ⟨0, 0⟩, false⟩ [] 0).resize 800 600
        = some (r, s1) ∧ s1.resize 800 600 = some (false, s1) :=
  resize_twice (CharVdev.mk 8 16 2 0 0 0 0 0 ⟨⟨0, 0⟩, ⟨0, 0⟩, false⟩ [] 0) 800 600 (by decide)

/-! ## `CharVdev::setSelection` -/

theorem Point.stdMin_spec (a b : Point) :
    (Point.stdMin a b = a ∨ Point.stdMin a b = b) ∧
    (Point.stdMin a b).rowMajorLE a ∧ (Point.stdMin a b).rowMajorLE b := by
  unfold Point.stdMin Point.rowMajorLE
  by_cases h : Point.lt b a = true
  · rw [if_pos h]
    simp only [Point.lt, Bool.or_eq_true, Bool.and_eq_true, decide_eq_true_eq] at h
    refine ⟨Or.inr rfl, ?_, ?_⟩ <;> omega
  · rw [if_neg h]
    simp only [Point.lt, Bool.or_eq_true, Bool.and_eq_true, decide_eq_true_eq] at h
    refine ⟨Or.inl rfl, ?_, ?_⟩ <;> omega

theorem Point.stdMax_spec (a b : Point) :
    (Point.stdMax a b = a ∨ Point.stdMax a b = b) ∧
    a.rowMajorLE (Point.stdMax a b) ∧ b.rowMajorLE (Point.stdMax a b) := by
  unfold Point.stdMax Point.rowMajorLE
  by_cases h : Point.lt a b = true
  · rw [if_pos h]
    simp only [Point.lt, Bool.or_eq_true, Bool.and_eq_true, decide_eq_true_eq] at h
    refine ⟨Or.inr rfl, ?_, ?_⟩ <;> omega
  · rw [if_neg h]
    simp only [Point.lt, Bool.or_eq_true, Bool.and_eq_true, decide_eq_true_eq] at h
    refine ⟨Or.inl rfl, ?_, ?_⟩ <;> omega

theorem damage_fits (n x y : Nat) (hn : n < 65536) (hx : x < 65536) (hy : y < 65536) :
    n * y + x + 1 < 2 ^ 32 := by
  have h : n * y ≤ 65535 * 65535 := Nat.mul_le_mul (by omega) (by omega)
  have h2 : (2 : Nat) ^ 32 = 4294967296 := by norm_num
  omega

/-- C8: for 16-bit grid coordinates and column count, `setSelection (sel)`
computes the damage span `[damageStart, damageEnd)` with
`damageStart = nCols * t.y + t.x` and `damageEnd = nCols * r.y + r.x + 1`, where
`t` is the row-major smaller of `sel.tl` and `prev.tl` and `r` the row-major
larger of `sel.br` and `prev.br`; it passes the span to the compute program and
remembers `sel` as the previous selection.  With `prev = ((0,0), (2,2))`,
`sel = ((1,1), (3,3))` and `nCols = 10` the span is `[0, 34)`. -/
theorem setSelection_damage (s : CharVdev) (sel : Rect) (hn : s.nCols < 65536)
    (hst : sel.tl.x < 65536 ∧ sel.tl.y < 65536) (hsb : sel.br.x < 65536 ∧ sel.br.y < 65536)
    (hpt : s.prev.tl.x < 65536 ∧ s.prev.tl.y < 65536)
    (hpb : s.prev.br.x < 65536 ∧ s.prev.br.y < 65536) :
    ∃ t r : Point,
      (t = sel.tl ∨ t = s.prev.tl) ∧ t.rowMajorLE sel.tl ∧ t.rowMajorLE s.prev.tl ∧
      (r = sel.br ∨ r = s.prev.br) ∧ sel.br.rowMajorLE r ∧ s.prev.br.rowMajorLE r ∧
      selectionDamage s.nCols s.prev sel
        = (s.nCols * t.y + t.x, s.nCols * r.y + r.x + 1) ∧
      (s.setSelection sel).prev = sel ∧
      (s.setSelection sel).gl = s.gl ++
        [GLCall.uniform4iSelectRect sel.tl.x sel.tl.y sel.br.x sel.br.y,
         GLCall.uniform1iSelectRectMode sel.rectangular,
         GLCall.uniform2iSelectDamage (s.nCols * t.y + t.x) (s.nCols * r.y + r.x + 1)] ∧
      (s.nCols = 10 → s.prev.tl = ⟨0, 0⟩ → s.prev.br = ⟨2, 2⟩ →
        sel.tl = ⟨1, 1⟩ → sel.br = ⟨3, 3⟩ →
        selectionDamage s.nCols s.prev sel = (0, 34)) := by
  obtain ⟨htm, ht1, ht2⟩ := Point.stdMin_spec sel.tl s.prev.tl
  obtain ⟨hrm, hr1, hr2⟩ := Point.stdMax_spec sel.br s.prev.br
  have htb : (Point.stdMin sel.tl s.prev.tl).x < 65536 ∧
      (Point.stdMin sel.tl s.prev.tl).y < 65536 := by
    rcases htm with h | h <;> rw [h] <;> assumption
  have hrb : (Point.stdMax sel.br s.prev.br).x < 65536 ∧
      (Point.stdMax sel.br s.prev.br).y < 65536 := by
    rcases hrm with h | h <;> rw [h] <;> assumption
  have hd : selectionDamage s.nCols s.prev sel
      = (s.nCols * (Point.stdMin sel.tl s.prev.tl).y + (Point.stdMin sel.tl s.prev.tl).x,
         s.nCols * (Point.stdMax sel.br s.prev.br).y
           + (Point.stdMax sel.br s.prev.br).x + 1) := by
    unfold selectionDamage
    have h1 := damage_fits s.nCols _ _ hn htb.1 htb.2
    have h2 := damage_fits s.nCols _ _ hn hrb.1 hrb.2
    simp only []
    rw [Nat.mod_eq_of_lt (by omega), Nat.mod_eq_of_lt h2]
  refine ⟨Point.stdMin sel.tl s.prev.tl, Point.stdMax sel.br s.prev.br,
    htm, ht1, ht2, hrm, hr1, hr2, hd, rfl, ?_, ?_⟩
  · unfold CharVdev.setSelection
    simp only [hd]
  · intro h1 h2 h3 h4 h5
    unfold selectionDamage
    rw [h1, h2, h3, h4, h5]
    decide

/-- The selection example of the specification. -/
theorem setSelection_damage_witness :
    ∃ t r : Point,
      (t = (⟨1, 1⟩ : Point) ∨ t = (⟨0, 0⟩ : Point)) ∧
      t.rowMajorLE ⟨1, 1⟩ ∧ t.rowMajorLE ⟨0, 0⟩ ∧
      (r = (⟨3, 3⟩ : Point) ∨ r = (⟨2, 2⟩ : Point)) ∧
      Point.rowMajorLE ⟨3, 3⟩ r ∧ Point.rowMajorLE ⟨2, 2⟩ r ∧
      selectionDamage 10 ⟨⟨0, 0⟩, ⟨2, 2⟩, false⟩ ⟨⟨1, 1⟩, ⟨3, 3⟩, false⟩
        = (10 * t.y + t.x, 10 * r.y + r.x + 1) ∧
      ((CharVdev.mk 8 16 2 800 600 10 37 0 ⟨⟨0, 0⟩, ⟨2, 2⟩, false⟩ [] 0).setSelection
        ⟨⟨1, 1⟩, ⟨3, 3⟩, false⟩).prev = ⟨⟨1, 1⟩, ⟨3, 3⟩, false⟩ ∧
      ((CharVdev.mk 8 16 2 800 600 10 37 0 ⟨⟨0, 0⟩, ⟨2, 2⟩, false⟩ [] 0).setSelection
        ⟨⟨1, 1⟩, ⟨3, 3⟩, false⟩).gl = [] ++
        [GLCall.uniform4iSelectRect 1 1 3 3,
         GLCall.uniform1iSelectRectMode false,
         GLCall.uniform2iSelectDamage (10 * t.y + t.x) (10 * r.y + r.x + 1)] ∧
      ((10 : Nat) = 10 → (⟨0, 0⟩ : Point) = ⟨0, 0⟩ → (⟨2, 2⟩ : Point) = ⟨2, 2⟩ →
        (⟨1, 1⟩ : Point) = ⟨1, 1⟩ → (⟨3, 3⟩ : Point) = ⟨3, 3⟩ →
        selectionDamage 10 ⟨⟨0, 0⟩, ⟨2, 2⟩, false⟩ ⟨⟨1, 1⟩, ⟨3, 3⟩, false⟩ = (0, 34)) :=
  setSelection_damage (CharVdev.mk 8 16 2 800 600 10 37 0 ⟨⟨0, 0⟩, ⟨2, 2⟩, false⟩ [] 0)
    ⟨⟨1, 1⟩, ⟨3, 3⟩, false⟩ (by decide) (by decide) (by decide) (by decide) (by decide)

/-! ## Mutual exclusion of `Mapping`, `draw` and `resize` -/

theorem step_invariant (s s' : CharVdev) (op : Op)
    (hview : ∀ v, op = Op.getMapping v → v ≠ 0)
    (hinv : (s.cells = 0 ∧ s.openMappings = 0) ∨ (s.cells ≠ 0 ∧ s.openMappings = 1))
    (hstep : s.step op = some s') :
    (s'.cells = 0 ∧ s'.openMappings = 0) ∨ (s'.cells ≠ 0 ∧ s'.openMappings = 1) := by
  cases op with
  | getMapping view =>
    have hv : view ≠ 0 := hview view rfl
    simp only [CharVdev.step, CharVdev.getMapping] at hstep
    by_cases hc : s.cells ≠ 0
    · simp [hc] at hstep
    · rw [if_neg hc] at hstep
      simp only [Option.map_some', Option.some.injEq] at hstep
      subst hstep
      right
      rcases hinv with h | h
      · exact ⟨hv, by simp [h.2]⟩
      · exact absurd h.1 hc
  | releaseMapping =>
    simp only [CharVdev.step, CharVdev.releaseMapping] at hstep
    by_cases hc : s.cells = 0
    · simp [hc] at hstep
    · rw [if_neg hc] at hstep
      simp only [Option.some.injEq] at hstep
      subst hstep
      left
      rcases hinv with h | h
      · exact absurd h.1 hc
      · exact ⟨rfl, by simp [h.2]⟩
  | draw =>
    simp only [CharVdev.step, CharVdev.draw] at hstep
    by_cases hc : s.cells ≠ 0
    · simp [hc] at hstep
    · rw [if_neg hc] at hstep
      simp only [Option.some.injEq] at hstep
      subst hstep
      exact hinv
  | resize w h =>
    simp only [CharVdev.step, CharVdev.resize] at hstep
    by_cases hc : s.cells ≠ 0
    · simp [hc] at hstep
    · rw [if_neg hc] at hstep
      by_cases hsame : s.pxWidth = w ∧ s.pxHeight = h
      · rw [if_pos hsame] at hstep
        simp only [Option.map_some', Option.some.injEq] at hstep
        subst hstep
        exact hinv
      · rw [if_neg hsame] at hstep
        simp only [Option.map_some', Option.some.injEq] at hstep
        subst hstep
        exact hinv

theorem run_invariant (ops : List Op) :
    ∀ (s0 s : CharVdev), (∀ v, Op.getMapping v ∈ ops → v ≠ 0) →
      ((s0.cells = 0 ∧ s0.openMappings = 0) ∨ (s0.cells ≠ 0 ∧ s0.openMappings = 1)) →
      CharVdev.run s0 ops = some s →
      (s.cells = 0 ∧ s.openMappings = 0) ∨ (s.cells ≠ 0 ∧ s.openMappings = 1) := by
  induction ops with
  | nil =>
    intro s0 s _ hinv hrun
    simp only [CharVdev.run, Option.some.injEq] at hrun
    subst hrun
    exact hinv
  | cons op ops ih =>
    intro s0 s hview hinv hrun
    simp only [CharVdev.run] at hrun
    cases hstep : s0.step op with
    | none => simp [hstep] at hrun
    | some s1 =>
      rw [hstep] at hrun
      simp only [Option.some_bind] at hrun
      have h1 := step_invariant s0 s1 op
        (fun v hv => hview v (by rw [hv]; exact List.mem_cons_self _ _)) hinv hstep
      exact ih s1 s (fun v hv => hview v (List.mem_cons_of_mem _ hv)) h1 hrun

/-- C2: in every state `s` reached from a state with no mapping open by
operations `getMapping`, release of the `Mapping`, `draw` and `resize` (the
buffer map call never returning a null view): at most one `Mapping` is open;
`getMapping` succeeds exactly when none is open, and then exactly one is open
and a second `getMapping` fails; while a `Mapping` is open `getMapping`, `draw`
and `resize` all fail, and releasing it succeeds and makes all three succeed
again. -/
theorem mapping_exclusive (s0 s : CharVdev) (ops : List Op)
    (hcells : s0.cells = 0) (hopen : s0.openMappings = 0)
    (hview : ∀ v, Op.getMapping v ∈ ops → v ≠ 0)
    (hrun : CharVdev.run s0 ops = some s) :
    s.openMappings ≤ 1 ∧
    (∀ v, (s.getMapping v).isSome = true ↔ s.openMappings = 0) ∧
    (∀ v m s1, v ≠ 0 → s.getMapping v = some (m, s1) →
      s1.openMappings = 1 ∧ ∀ v2, s1.getMapping v2 = none) ∧
    (s.openMappings = 1 →
      (∀ v, s.getMapping v = none) ∧ s.draw = none ∧ (∀ w h, s.resize w h = none)) ∧
    (s.openMappings = 1 →
      ∃ s2, s.releaseMapping = some s2 ∧ s2.openMappings = 0 ∧
        (∀ v, (s2.getMapping v).isSome = true) ∧ (s2.draw).isSome = true ∧
        (∀ w h, (s2.resize w h).isSome = true)) := by
  have hinv := run_invariant ops s0 s hview (Or.inl ⟨hcells, hopen⟩) hrun
  refine ⟨?_, ?_, ?_, ?_, ?_⟩
  · rcases hinv with h | h <;> omega
  · intro v
    rcases hinv with h | h
    · simp [CharVdev.getMapping, h.1, h.2]
    · simp [CharVdev.getMapping, h.1, h.2]
  · intro v m s1 hv hget
    rcases hinv with h | h
    · simp only [CharVdev.getMapping, h.1, ne_eq, not_true_eq_false, if_false,
        Option.some.injEq, Prod.mk.injEq] at hget
      obtain ⟨_, hs1⟩ := hget
      subst hs1
      refine ⟨by simp [h.2], ?_⟩
      intro v2
      simp [CharVdev.getMapping, hv]
    · simp [CharVdev.getMapping, h.1] at hget
  · intro h1
    rcases hinv with h | h
    · omega
    · refine ⟨?_, ?_, ?_⟩
      · intro v
        simp [CharVdev.getMapping, h.1]
      · simp [CharVdev.draw, h.1]
      · intro w h'
        simp [CharVdev.resize, h.1]
  · intro h1
    rcases hinv with h | h
    · omega
    · simp only [CharVdev.releaseMapping, if_neg h.1]
      refine ⟨_, rfl, ?_, ?_, ?_, ?_⟩
      · simp [h.2]
      · intro v
        simp [CharVdev.getMapping]
      · simp [CharVdev.draw]
      · intro w h'
        unfold CharVdev.resize
        simp only [ne_eq, not_true_eq_false, if_false]
        split <;> rfl

/-- A controller that is resized, draws, and then hands out a `Mapping`. -/
theorem mapping_exclusive_witness :
    ∃ s, CharVdev.run (CharVdev.mk 8 16 2 0 0 0 0 0 ⟨⟨0, 0⟩, ⟨0, 0⟩, false⟩ [] 0)
        [Op.resize 800 600, Op.draw, Op.getMapping 7, Op.releaseMapping, Op.getMapping 9]
        = some s ∧
      s.openMappings ≤ 1 ∧
      (∀ v, (s.getMapping v).isSome = true ↔ s.openMappings = 0) ∧
      (∀ v m s1, v ≠ 0 → s.getMapping v = some (m, s1) →
        s1.openMappings = 1 ∧ ∀ v2, s1.getMapping v2 = none) ∧
      (s.openMappings = 1 →
        (∀ v, s.getMapping v = none) ∧ s.draw = none ∧ (∀ w h, s.resize w h = none)) ∧
      (s.openMappings = 1 →
        ∃ s2, s.releaseMapping = some s2 ∧ s2.openMappings = 0 ∧
          (∀ v, (s2.getMapping v).isSome = true) ∧ (s2.draw).isSome = true ∧
          (∀ w h, (s2.resize w h).isSome = true)) :=
  ⟨_, rfl,
    mapping_exclusive (CharVdev.mk 8 16 2 0 0 0 0 0 ⟨⟨0, 0⟩, ⟨0, 0⟩, false⟩ [] 0) _
      [Op.resize 800 600, Op.draw, Op.getMapping 7, Op.releaseMapping, Op.getMapping 9]
      (by decide) (by decide)
      (by
        intro v hv
        simp only [List.mem_cons, Op.getMapping.injEq, List.mem_singleton, false_or, or_false,
          reduceCtorEq, List.not_mem_nil] at hv
        omega)
      rfl⟩

/-! ## `setupAtlasMappingTexture` -/

theorem putAtlasPos_length (img : List Nat) (k : Nat) (p : AtlasPos) :
    (putAtlasPos img k p).length = img.length := by
  simp [putAtlasPos]

theorem putAtlasPos_same (img : List Nat) (k : Nat) (p : AtlasPos)
    (hk : 2 * k + 1 < img.length) :
    (putAtlasPos img k p)[2 * k]? = some p.x ∧ (putAtlasPos img k p)[2 * k + 1]? = some p.y := by
  unfold putAtlasPos
  constructor
  · rw [List.getElem?_set_ne (by omega), List.getElem?_set_eq_of_lt _ (by omega)]
  · rw [List.getElem?_set_eq_of_lt _ (by simp; omega)]

theorem putAtlasPos_other (img : List Nat) (k j : Nat) (p : AtlasPos) (hne : j ≠ k) :
    (putAtlasPos img j p)[2 * k]? = img[2 * k]? ∧
    (putAtlasPos img j p)[2 * k + 1]? = img[2 * k + 1]? := by
  unfold putAtlasPos
  constructor
  · rw [List.getElem?_set_ne (by omega), List.getElem?_set_ne (by omega)]
  · rw [List.getElem?_set_ne (by omega), List.getElem?_set_ne (by omega)]

theorem fillDefaults_length (apRC apMG : AtlasPos) (n : Nat) (img : List Nat) :
    (fillDefaults apRC apMG n img).length = img.length := by
  unfold fillDefaults
  induction n with
  | zero => simp
  | succ n ih => rw [List.range_succ, List.foldl_append]; simpa [putAtlasPos_length] using ih

theorem fillDefaults_get (apRC apMG : AtlasPos) (img : List Nat) (n : Nat)
    (hn : 2 * n ≤ img.length) (k : Nat) (hk : k < n) :
    (fillDefaults apRC apMG n img)[2 * k]? = some (defaultAtlasPos apRC apMG k).x ∧
    (fillDefaults apRC apMG n img)[2 * k + 1]? = some (defaultAtlasPos apRC apMG k).y := by
  induction n with
  | zero => omega
  | succ n ih =>
    have hstep : fillDefaults apRC apMG (n + 1) img
        = putAtlasPos (fillDefaults apRC apMG n img) n (defaultAtlasPos apRC apMG n) := by
      unfold fillDefaults
      rw [List.range_succ, List.foldl_append]
      rfl
    rw [hstep]
    by_cases hkn : k = n
    · subst hkn
      apply putAtlasPos_same
      rw [fillDefaults_length]
      omega
    · have h1 := putAtlasPos_other (fillDefaults apRC apMG n img) k n
        (defaultAtlasPos apRC apMG n) (fun h => hkn h.symm)
      rw [h1.1, h1.2]
      exact ih (by omega) (by omega)

theorem fillSupported_length (m : AtlasMap) :
    ∀ img : List Nat, (fillSupported m img).length = img.length := by
  induction m with
  | nil => intro img; rfl
  | cons e m ih =>
    intro img
    show (fillSupported m (putAtlasPos img e.1 e.2)).length = img.length
    rw [ih, putAtlasPos_length]

theorem fillSupported_absent (m : AtlasMap) (k : Nat) (hk : AtlasMap.find m k = none) :
    ∀ img : List Nat, (fillSupported m img)[2 * k]? = img[2 * k]? ∧
      (fillSupported m img)[2 * k + 1]? = img[2 * k + 1]? := by
  induction m with
  | nil => intro img; exact ⟨rfl, rfl⟩
  | cons e m ih =>
    intro img
    obtain ⟨c, p⟩ := e
    unfold AtlasMap.find at hk ih
    rw [List.lookup_cons] at hk
    by_cases hc : (k == c) = true
    · rw [hc] at hk
      simp at hk
    · have hc2 : (k == c) = false := by simpa using hc
      rw [hc2] at hk
      have hne : c ≠ k := by
        intro h
        rw [h] at hc
        simp at hc
      show (fillSupported m (putAtlasPos img c p))[2 * k]? = _ ∧
        (fillSupported m (putAtlasPos img c p))[2 * k + 1]? = _
      have h1 := ih hk (putAtlasPos img c p)
      have h2 := putAtlasPos_other img k c p hne
      rw [h1.1, h1.2, h2.1, h2.2]
      exact ⟨rfl, rfl⟩

theorem find_none_of_not_mem (m : AtlasMap) (k : Nat) (h : k ∉ m.map Prod.fst) :
    AtlasMap.find m k = none := by
  induction m with
  | nil => rfl
  | cons e m ih =>
    obtain ⟨c, p⟩ := e
    simp only [List.map_cons, List.mem_cons, not_or] at h
    unfold AtlasMap.find at ih ⊢
    rw [List.lookup_cons]
    have hc : (k == c) = false := by simpa using h.1
    rw [hc]
    exact ih h.2

theorem fillSupported_present (m : AtlasMap) (k : Nat) (p : AtlasPos)
    (hnd : (m.map Prod.fst).Nodup) (hk : AtlasMap.find m k = some p) :
    ∀ img : List Nat, 2 * k + 1 < img.length →
      (fillSupported m img)[2 * k]? = some p.x ∧ (fillSupported m img)[2 * k + 1]? = some p.y := by
  induction m with
  | nil => simp [AtlasMap.find] at hk
  | cons e m ih =>
    intro img hlen
    obtain ⟨c, q⟩ := e
    simp only [List.map_cons, List.nodup_cons] at hnd
    show (fillSupported m (putAtlasPos img c q))[2 * k]? = _ ∧
      (fillSupported m (putAtlasPos img c q))[2 * k + 1]? = _
    unfold AtlasMap.find at hk ih
    rw [List.lookup_cons] at hk
    by_cases hc : (k == c) = true
    · rw [hc] at hk
      simp only [Option.some.injEq] at hk
      have hkc : k = c := by simpa using hc
      subst hkc
      subst hk
      have h1 := fillSupported_absent m k (find_none_of_not_mem m k hnd.1) (putAtlasPos img k q)
      rw [h1.1, h1.2]
      exact putAtlasPos_same img k q hlen
    · have hc2 : (k == c) = false := by simpa using hc
      rw [hc2] at hk
      exact ih hnd.2 hk (putAtlasPos img c q) (by rw [putAtlasPos_length]; exact hlen)

/-- C3: for an atlas map with distinct keys (a `std::map`) that are codepoints
in `0..0xFFFF`, and every codepoint
`k < 65536`, the image built by `setupAtlasMappingTexture` has `2 * 65536`
bytes and holds at bytes `2k` and `2k + 1` the `x` and `y` of the position that
the map gives `k`; when `k` is not a key it holds the default for `k`: the
position of `Unicode_Replacement_Character` (or `(0,0)` when that is not a
key) for `0xD800 ≤ k < 0xE000` or `k ≥ 0xFFFE`, and that of
`Missing_Glyph_Marker` (or `(0,0)`) for every other `k`. -/
theorem setupAtlasMappingTexture_spec (urc mgm : Nat) (m : AtlasMap)
    (_hkeys : ∀ e ∈ m, e.1 ≤ 0xFFFF) (hnd : (m.map Prod.fst).Nodup)
    (k : Nat) (hk : k < 65536) :
    (setupAtlasMappingTexture urc mgm m).length = 2 * 65536 ∧
    (∀ p, AtlasMap.find m k = some p →
      (setupAtlasMappingTexture urc mgm m)[2 * k]? = some p.x ∧
      (setupAtlasMappingTexture urc mgm m)[2 * k + 1]? = some p.y) ∧
    (AtlasMap.find m k = none → ((0xD800 ≤ k ∧ k < 0xE000) ∨ 0xFFFE ≤ k) →
      (setupAtlasMappingTexture urc mgm m)[2 * k]?
        = some ((AtlasMap.find m urc).getD ⟨0, 0⟩).x ∧
      (setupAtlasMappingTexture urc mgm m)[2 * k + 1]?
        = some ((AtlasMap.find m urc).getD ⟨0, 0⟩).y) ∧
    (AtlasMap.find m k = none → ¬ ((0xD800 ≤ k ∧ k < 0xE000) ∨ 0xFFFE ≤ k) →
      (setupAtlasMappingTexture urc mgm m)[2 * k]?
        = some ((AtlasMap.find m mgm).getD ⟨0, 0⟩).x ∧
      (setupAtlasMappingTexture urc mgm m)[2 * k + 1]?
        = some ((AtlasMap.find m mgm).getD ⟨0, 0⟩).y) := by
  have hrc : (match AtlasMap.find m urc with
      | some p => p
      | none => ({ x := 0, y := 0 } : AtlasPos)) = (AtlasMap.find m urc).getD ⟨0, 0⟩ := by
    cases AtlasMap.find m urc <;> rfl
  have hmg : (match AtlasMap.find m mgm with
      | some p => p
      | none => ({ x := 0, y := 0 } : AtlasPos)) = (AtlasMap.find m mgm).getD ⟨0, 0⟩ := by
    cases AtlasMap.find m mgm <;> rfl
  have hlen0 : (List.replicate (2 * 256 * 256) (0 : Nat)).length = 2 * 65536 := by
    rw [List.length_replicate]
  unfold setupAtlasMappingTexture
  simp only [hrc, hmg]
  have hlen1 : ∀ a b : AtlasPos, (fillDefaults a b (256 * 256)
      (List.replicate (2 * 256 * 256) 0)).length = 2 * 65536 := by
    intro a b
    rw [fillDefaults_length, hlen0]
  refine ⟨?_, ?_, ?_, ?_⟩
  · rw [fillSupported_length, hlen1]
  · intro p hp
    exact fillSupported_present m k p hnd hp _ (by rw [hlen1]; omega)
  · intro hnone hrange
    have h1 := fillSupported_absent m k hnone
      (fillDefaults ((AtlasMap.find m urc).getD ⟨0, 0⟩) ((AtlasMap.find m mgm).getD ⟨0, 0⟩)
        (256 * 256) (List.replicate (2 * 256 * 256) 0))
    have h2 := fillDefaults_get ((AtlasMap.find m urc).getD ⟨0, 0⟩)
      ((AtlasMap.find m mgm).getD ⟨0, 0⟩) (List.replicate (2 * 256 * 256) 0) (256 * 256)
      (by rw [hlen0]) k (by omega)
    have hd : defaultAtlasPos ((AtlasMap.find m urc).getD ⟨0, 0⟩)
        ((AtlasMap.find m mgm).getD ⟨0, 0⟩) k = (AtlasMap.find m urc).getD ⟨0, 0⟩ := by
      unfold defaultAtlasPos
      rw [if_pos (by omega)]
    rw [h1.1, h1.2, h2.1, h2.2, hd]
    exact ⟨rfl, rfl⟩
  · intro hnone hrange
    have h1 := fillSupported_absent m k hnone
      (fillDefaults ((AtlasMap.find m urc).getD ⟨0, 0⟩) ((AtlasMap.find m mgm).getD ⟨0, 0⟩)
        (256 * 256) (List.replicate (2 * 256 * 256) 0))
    have h2 := fillDefaults_get ((AtlasMap.find m urc).getD ⟨0, 0⟩)
      ((AtlasMap.find m mgm).getD ⟨0, 0⟩) (List.replicate (2 * 256 * 256) 0) (256 * 256)
      (by rw [hlen0]) k (by omega)
    have hd : defaultAtlasPos ((AtlasMap.find m urc).getD ⟨0, 0⟩)
        ((AtlasMap.find m mgm).getD ⟨0, 0⟩) k = (AtlasMap.find m mgm).getD ⟨0, 0⟩ := by
      unfold defaultAtlasPos
      rw [if_neg (by omega)]
    rw [h1.1, h1.2, h2.1, h2.2, hd]
    exact ⟨rfl, rfl⟩

/-- A font with glyphs for the missing-glyph marker `0`, for `A` and for the
replacement character `0xFFFD`; the entry of the surrogate `0xD800`. -/
theorem setupAtlasMappingTexture_spec_witness :
    (setupAtlasMappingTexture 0xFFFD 0 [(0, ⟨1, 0⟩), (65, ⟨2, 0⟩), (0xFFFD, ⟨3, 0⟩)]).length
      = 2 * 65536 ∧
    (∀ p, AtlasMap.find [(0, ⟨1, 0⟩), (65, ⟨2, 0⟩), (0xFFFD, ⟨3, 0⟩)] 0xD800 = some p →
      (setupAtlasMappingTexture 0xFFFD 0
        [(0, ⟨1, 0⟩), (65, ⟨2, 0⟩), (0xFFFD, ⟨3, 0⟩)])[2 * 0xD800]? = some p.x ∧
      (setupAtlasMappingTexture 0xFFFD 0
        [(0, ⟨1, 0⟩), (65, ⟨2, 0⟩), (0xFFFD, ⟨3, 0⟩)])[2 * 0xD800 + 1]? = some p.y) ∧
    (AtlasMap.find [(0, ⟨1, 0⟩), (65, ⟨2, 0⟩), (0xFFFD, ⟨3, 0⟩)] 0xD800 = none →
      ((0xD800 ≤ 0xD800 ∧ 0xD800 < 0xE000) ∨ 0xFFFE ≤ 0xD800) →
      (setupAtlasMappingTexture 0xFFFD 0
        [(0, ⟨1, 0⟩), (65, ⟨2, 0⟩), (0xFFFD, ⟨3, 0⟩)])[2 * 0xD800]?
        = some ((AtlasMap.find [(0, ⟨1, 0⟩), (65, ⟨2, 0⟩), (0xFFFD, ⟨3, 0⟩)] 0xFFFD).getD
            ⟨0, 0⟩).x ∧
      (setupAtlasMappingTexture 0xFFFD 0
        [(0, ⟨1, 0⟩), (65, ⟨2, 0⟩), (0xFFFD, ⟨3, 0⟩)])[2 * 0xD800 + 1]?
        = some ((AtlasMap.find [(0, ⟨1, 0⟩), (65, ⟨2, 0⟩), (0xFFFD, ⟨3, 0⟩)] 0xFFFD).getD
            ⟨0, 0⟩).y) ∧
    (AtlasMap.find [(0, ⟨1, 0⟩), (65, ⟨2, 0⟩), (0xFFFD, ⟨3, 0⟩)] 0xD800 = none →
      ¬ ((0xD800 ≤ 0xD800 ∧ 0xD800 < 0xE000) ∨ 0xFFFE ≤ 0xD800) →
      (setupAtlasMappingTexture 0xFFFD 0
        [(0, ⟨1, 0⟩), (65, ⟨2, 0⟩), (0xFFFD, ⟨3, 0⟩)])[2 * 0xD800]?
        = some ((AtlasMap.find [(0, ⟨1, 0⟩), (65, ⟨2, 0⟩), (0xFFFD, ⟨3, 0⟩)] 0).getD
            ⟨0, 0⟩).x ∧
      (setupAtlasMappingTexture 0xFFFD 0
        [(0, ⟨1, 0⟩), (65, ⟨2, 0⟩), (0xFFFD, ⟨3, 0⟩)])[2 * 0xD800 + 1]?
        = some ((AtlasMap.find [(0, ⟨1, 0⟩), (65, ⟨2, 0⟩), (0xFFFD, ⟨3, 0⟩)] 0).getD
            ⟨0, 0⟩).y) :=
  setupAtlasMappingTexture_spec 0xFFFD 0 [(0, ⟨1, 0⟩), (65, ⟨2, 0⟩), (0xFFFD, ⟨3, 0⟩)]
    (by decide) (by decide) 0xD800 (by decide)

/-! ## Loops and confined accesses -/

theorem forLoop_induct {σ : Type} (I : Int → σ → Prop) (lo hi : Int) (body : Int → σ → σ)
    (s : σ) (h0 : I lo s)
    (hstep : ∀ i s, lo ≤ i → i < hi → I i s → I (i + 1) (body i s)) :
    I (max lo hi) (forLoop lo hi body s) := by
  have key : ∀ n : Nat, (n : Int) ≤ max lo hi - lo →
      I (lo + (n : Int))
        ((List.range n).foldl (fun (acc : σ) (i : Nat) => body (lo + (i : Int)) acc) s) := by
    intro n
    induction n with
    | zero =>
      intro _
      simpa using h0
    | succ n ih =>
      intro hn
      rw [List.range_succ, List.foldl_append]
      simp only [List.foldl_cons, List.foldl_nil]
      have h1 := ih (by omega)
      have h2 := hstep (lo + (n : Int)) _ (by omega) (by omega) h1
      have e : lo + ((n + 1 : Nat) : Int) = lo + (n : Int) + 1 := by omega
      rw [e]
      exact h2
  have h := key (hi - lo).toNat (by omega)
  have e : lo + (((hi - lo).toNat : Nat) : Int) = max lo hi := by omega
  rw [e] at h
  exact h

theorem forLoop_invariant {σ : Type} (I : σ → Prop) (lo hi : Int) (body : Int → σ → σ)
    (s : σ) (h0 : I s) (hstep : ∀ i s, lo ≤ i → i < hi → I s → I (body i s)) :
    I (forLoop lo hi body s) :=
  forLoop_induct (fun _ s => I s) lo hi body s h0 hstep

theorem Blit.Confined.store {S L : Int → Prop} {m0 : Mem} {b : Blit}
    (h : b.Confined S L m0) (i : Int) (v : Nat) (hi : S i) :
    (b.store i v).Confined S L m0 := by
  obtain ⟨h1, h2, h3⟩ := h
  refine ⟨?_, h2, ?_⟩
  · intro j hj
    simp only [Blit.store, List.mem_cons] at hj
    rcases hj with rfl | hj
    · exact hi
    · exact h1 j hj
  · intro j hj
    have hne : j ≠ i := fun e => hj (e ▸ hi)
    simp only [Blit.store, Function.update_noteq hne]
    exact h3 j hj

theorem Blit.Confined.load {S L : Int → Prop} {m0 : Mem} {b : Blit}
    (h : b.Confined S L m0) (i : Int) (hi : L i) :
    (b.load i).Confined S L m0 := by
  obtain ⟨h1, h2, h3⟩ := h
  refine ⟨h1, ?_, h3⟩
  intro j hj
  simp only [Blit.load, List.mem_cons] at hj
  rcases hj with rfl | hj
  · exact hi
  · exact h2 j hj

theorem clearCell_confined (S L : Int → Prop) (m0 : Mem) (nx px py : Nat) (go : Int)
    (hS : ∀ j k : Int, 0 ≤ j → j < py → 0 ≤ k → k < px →
      S (go + j * (nx : Int) * (px : Int) + k))
    (b : Blit) (hb : b.Confined S L m0) :
    (clearCell nx px py go b).Confined S L m0 := by
  unfold clearCell
  refine forLoop_invariant (fun b : Blit => b.Confined S L m0) _ _ _ _ hb ?_
  intro j b hj0 hj1 hb
  have h := forLoop_induct
    (fun k (st : Int × Blit) =>
      st.1 = go + j * (nx : Int) * (px : Int) + k ∧ st.2.Confined S L m0)
    0 (px : Int) (fun _ (st : Int × Blit) => (st.1 + 1, st.2.store st.1 0))
    (go + j * (nx : Int) * (px : Int), b) ⟨by simp, hb⟩
    (by
      intro k st hk0 hk1 hst
      obtain ⟨hp, hc⟩ := hst
      refine ⟨by simp only [hp]; ring, ?_⟩
      apply hc.store
      rw [hp]
      exact hS j k hj0 hj1 hk0 hk1)
  exact h.2

theorem blitGray_confined (S L : Int → Prop) (m0 : Mem) (bmp : Bitmap) (nx px : Nat)
    (sh sw bh bw wo : Int)
    (hS : ∀ j k : Int, 0 ≤ j → j < bh → 0 ≤ k → k < bw →
      S (wo + j * (nx : Int) * (px : Int) + k))
    (hL : ∀ j k : Int, 0 ≤ j → j < bh → 0 ≤ k → k < bw →
      L ((j + sh) * bmp.pitch + sw + k))
    (b : Blit) (hb : b.Confined S L m0) :
    (blitGray bmp nx px sh sw bh bw wo b).Confined S L m0 := by
  unfold blitGray
  refine forLoop_invariant (fun b : Blit => b.Confined S L m0) _ _ _ _ hb ?_
  intro j b hj0 hj1 hb
  have h := forLoop_induct
    (fun k (st : GrayState) =>
      st.bmp_src_row = (j + sh) * bmp.pitch + sw + k ∧
      st.atl_dst_row = wo + j * (nx : Int) * (px : Int) + k ∧ st.blit.Confined S L m0)
    0 bw (fun _ st => grayStep bmp.buffer st)
    { bmp_src_row := (j + sh) * bmp.pitch + sw,
      atl_dst_row := wo + j * (nx : Int) * (px : Int), blit := b }
    ⟨by simp, by simp, hb⟩
    (by
      intro k st hk0 hk1 hst
      obtain ⟨hp, hq, hc⟩ := hst
      refine ⟨by simp only [grayStep, hp]; ring, by simp only [grayStep, hq]; ring, ?_⟩
      simp only [grayStep]
      apply Blit.Confined.store
      · apply hc.load
        rw [hp]
        exact hL j k hj0 hj1 hk0 hk1
      · rw [hq]
        exact hS j k hj0 hj1 hk0 hk1)
  exact h.2.2

theorem blitMono_confined (S L : Int → Prop) (m0 : Mem) (bmp : Bitmap) (nx px : Nat)
    (sh sw bh bw wo : Int) (hsw : 0 ≤ sw)
    (hS : ∀ j k : Int, sh ≤ j → j < bh → sw ≤ k → k < bw →
      S (wo + j * (nx : Int) * (px : Int) + (k - sw)))
    (hL : ∀ j k : Int, sh ≤ j → j < bh → 0 ≤ k → k < bw →
      L (j * bmp.pitch + k / 8))
    (b : Blit) (hb : b.Confined S L m0) :
    (blitMono bmp nx px sh sw bh bw wo b).Confined S L m0 := by
  unfold blitMono
  refine forLoop_invariant (fun b : Blit => b.Confined S L m0) _ _ _ _ hb ?_
  intro j b hj0 hj1 hb
  have h := forLoop_induct
    (fun k (st : MonoState) =>
      st.bmp_src_row = j * bmp.pitch + (k + 7) / 8 ∧
      st.atl_dst_row = wo + j * (nx : Int) * (px : Int) + max 0 (k - sw) ∧
      st.blit.Confined S L m0)
    0 bw (monoStep bmp.buffer sw)
    { bmp_src_row := j * bmp.pitch, atl_dst_row := wo + j * (nx : Int) * (px : Int),
      byte := 0, blit := b }
    ⟨by simp, by simp; omega, hb⟩
    (by
      intro k st hk0 hk1 hst
      obtain ⟨hp, hq, hc⟩ := hst
      unfold monoStep
      by_cases h8 : k % 8 = 0
      · have hload : (st.blit.load st.bmp_src_row).Confined S L m0 := by
          apply hc.load
          rw [hp]
          have e : (k + 7) / 8 = k / 8 := by omega
          rw [e]
          exact hL j k hj0 hj1 hk0 hk1
        by_cases hw : k ≥ sw
        · simp only [h8, hw, if_true]
          refine ⟨by rw [hp]; omega, by rw [hq]; omega, ?_⟩
          apply hload.store
          rw [hq]
          have e : max 0 (k - sw) = k - sw := by omega
          rw [e]
          exact hS j k hj0 hj1 hw hk1
        · simp only [h8, hw, if_true, if_false]
          exact ⟨by rw [hp]; omega, by rw [hq]; omega, hload⟩
      · by_cases hw : k ≥ sw
        · simp only [h8, hw, if_true, if_false]
          refine ⟨by rw [hp]; omega, by rw [hq]; omega, ?_⟩
          apply hc.store
          rw [hq]
          have e : max 0 (k - sw) = k - sw := by omega
          rw [e]
          exact hS j k hj0 hj1 hw hk1
        · simp only [h8, hw, if_false]
          exact ⟨by rw [hp]; omega, by rw [hq]; omega, hc⟩)
  exact h.2.2

/-! ## `Font::loadFace (face, c, apos)`: placement and bounds -/

theorem placement_bounds (f : Font) (glyph : GlyphSlot) (apos : AtlasPos) :
    0 ≤ (f.placement glyph apos).sw ∧ 0 ≤ (f.placement glyph apos).sh ∧
    0 ≤ (f.placement glyph apos).dx ∧ 0 ≤ (f.placement glyph apos).dy ∧
    (f.placement glyph apos).bh ≤ (glyph.bitmap.rows : Int) - (f.placement glyph apos).sh ∧
    (f.placement glyph apos).bh ≤ (f.py : Int) - (f.placement glyph apos).dy ∧
    (f.placement glyph apos).bw ≤ (glyph.bitmap.width : Int) - (f.placement glyph apos).sw ∧
    (f.placement glyph apos).bw ≤ (f.px : Int) - (f.placement glyph apos).dx := by
  simp only [Font.placement]
  refine ⟨?_, ?_, ?_, ?_, ?_, ?_, ?_, ?_⟩ <;> omega

theorem placement_offsets (f : Font) (glyph : GlyphSlot) (apos : AtlasPos) :
    (f.placement glyph apos).atlas_glyph_offset = f.cellIndex apos 0 0 ∧
    (f.placement glyph apos).atlas_write_offset
      = (f.placement glyph apos).atlas_glyph_offset
        + (f.nx : Int) * (f.px : Int) * (f.placement glyph apos).dy
        + (f.placement glyph apos).dx := by
  refine ⟨?_, rfl⟩
  simp only [Font.placement, Font.cellIndex]
  push_cast
  ring

theorem inCell_of_offset (f : Font) (apos : AtlasPos) (r c : Int)
    (hr0 : 0 ≤ r) (hr1 : r < f.py) (hc0 : 0 ≤ c) (hc1 : c < f.px) :
    f.InCell apos (f.cellIndex apos 0 0 + r * (f.nx : Int) * (f.px : Int) + c) := by
  refine ⟨r.toNat, c.toNat, by omega, by omega, ?_⟩
  have er : ((r.toNat : Nat) : Int) = r := Int.toNat_of_nonneg hr0
  have ec : ((c.toNat : Nat) : Int) = c := Int.toNat_of_nonneg hc0
  simp only [Font.cellIndex]
  push_cast
  rw [er, ec]
  ring

theorem blitFace_confined (f : Font) (face : Face) (c : Nat) (apos : AtlasPos)
    (glyph : GlyphSlot) (hglyph : face.loadChar c = some glyph)
    (hmode : glyph.bitmap.pixel_mode = FT_PIXEL_MODE_MONO ∨
      glyph.bitmap.pixel_mode = FT_PIXEL_MODE_GRAY) :
    ∃ b, f.blitFace face c apos = Except.ok b ∧
      b.Confined (f.InCell apos) glyph.bitmap.InBitmap f.atlasBuf := by
  obtain ⟨hsw, hsh, hdx, hdy, hbh1, hbh2, hbw1, hbw2⟩ := placement_bounds f glyph apos
  obtain ⟨hgo, hwo⟩ := placement_offsets f glyph apos
  have hb0 : Blit.Confined (f.InCell apos) glyph.bitmap.InBitmap f.atlasBuf
      { mem := f.atlasBuf, stores := [], loads := [] } :=
    ⟨by simp, by simp, fun _ _ => rfl⟩
  have hb1 : Blit.Confined (f.InCell apos) glyph.bitmap.InBitmap f.atlasBuf
      (if f.overlay then
        clearCell f.nx f.px f.py (f.placement glyph apos).atlas_glyph_offset
          { mem := f.atlasBuf, stores := [], loads := [] }
       else { mem := f.atlasBuf, stores := [], loads := [] }) := by
    split
    · apply clearCell_confined _ _ _ _ _ _ _ _ _ hb0
      intro j k hj0 hj1 hk0 hk1
      rw [hgo]
      exact inCell_of_offset f apos j k hj0 hj1 hk0 hk1
    · exact hb0
  have hstore : ∀ r k : Int, 0 ≤ r → r < f.py → 0 ≤ k → k < f.px →
      ∀ i : Int, i = f.cellIndex apos 0 0 + r * (f.nx : Int) * (f.px : Int) + k →
      f.InCell apos i := by
    intro r k h1 h2 h3 h4 i hi
    rw [hi]
    exact inCell_of_offset f apos r k h1 h2 h3 h4
  unfold Font.blitFace
  rw [hglyph]
  simp only []
  rcases hmode with hm | hg
  · rw [if_pos hm]
    refine ⟨_, rfl, ?_⟩
    apply blitMono_confined _ _ _ _ _ _ _ _ _ _ _ hsw _ _ _ hb1
    · intro j k hj0 hj1 hk0 hk1
      apply hstore ((f.placement glyph apos).dy + j) ((f.placement glyph apos).dx + (k - (f.placement glyph apos).sw))
        (by omega) (by omega) (by omega) (by omega)
      rw [hwo, hgo]
      ring
    · intro j k hj0 hj1 hk0 hk1
      refine ⟨j.toNat, (k / 8).toNat, by omega, ?_, ?_⟩
      · unfold Bitmap.rowBytes
        rw [if_pos hm]
        omega
      · have e1 : ((j.toNat : Nat) : Int) = j := Int.toNat_of_nonneg (by omega)
        have e2 : (((k / 8).toNat : Nat) : Int) = k / 8 := Int.toNat_of_nonneg (by omega)
        rw [e1, e2]
  · have hnm : ¬ glyph.bitmap.pixel_mode = FT_PIXEL_MODE_MONO := by
      rw [hg]
      decide
    rw [if_neg hnm, if_pos hg]
    refine ⟨_, rfl, ?_⟩
    apply blitGray_confined _ _ _ _ _ _ _ _ _ _ _ _ _ _ hb1
    · intro j k hj0 hj1 hk0 hk1
      apply hstore ((f.placement glyph apos).dy + j) ((f.placement glyph apos).dx + k)
        (by omega) (by omega) (by omega) (by omega)
      rw [hwo, hgo]
      ring
    · intro j k hj0 hj1 hk0 hk1
      refine ⟨(j + (f.placement glyph apos).sh).toNat, ((f.placement glyph apos).sw + k).toNat,
        by omega, ?_, ?_⟩
      · unfold Bitmap.rowBytes
        rw [if_neg hnm]
        omega
      · have e1 : (((j + (f.placement glyph apos).sh).toNat : Nat) : Int)
            = j + (f.placement glyph apos).sh := Int.toNat_of_nonneg (by omega)
        have e2 : ((((f.placement glyph apos).sw + k).toNat : Nat) : Int)
            = (f.placement glyph apos).sw + k := Int.toNat_of_nonneg (by omega)
        rw [e1, e2]
        ring

/-- C10, the code at a failing input: a mono bitmap of two rows of eight
pixels whose first byte is `0xFF`, blitted with left bearing `-2` into a cell
of 8×2 pixels (`sw = 2`, `dx = 0`, `min (width - sw, px - dx) = 6`).  The
source bit at column `sw + 4 = 6` of row 0 is set, so the pixel at column 4 of
row 0 of the cell ought to be `0xFF`; the mono loop stops at source column
`bw = 6` and leaves the pixel as it was (`9` in the example buffer, `0` after
the zero-fill of an overlay font), whereas the gray loop stores the source
byte (`255 - 6`) there.  With top bearing one above the baseline (`sh = 1`,
`bh = 1`) the mono loop `for (j = sh; j < bh; ++j)` stores nothing at all: row
0 of the cell keeps its bytes, whereas the gray loop copies source row 1. -/
theorem loadFace_mono_clip_divergence :
    exampleBytes 0 &&& (0x80 >>> 6) ≠ 0 ∧
    atlasByte ((exampleFont false 0).blitFace (exampleFace FT_PIXEL_MODE_MONO (-2) 0) 65 ⟨0, 0⟩)
        ((exampleFont false 0).cellIndex ⟨0, 0⟩ 0 3) = some 0xFF ∧
    atlasByte ((exampleFont false 0).blitFace (exampleFace FT_PIXEL_MODE_MONO (-2) 0) 65 ⟨0, 0⟩)
        ((exampleFont false 0).cellIndex ⟨0, 0⟩ 0 4) = some 9 ∧
    atlasByte ((exampleFont true 0).blitFace (exampleFace FT_PIXEL_MODE_MONO (-2) 0) 65 ⟨0, 0⟩)
        ((exampleFont true 0).cellIndex ⟨0, 0⟩ 0 4) = some 0 ∧
    atlasByte ((exampleFont false 0).blitFace (exampleFace FT_PIXEL_MODE_GRAY (-2) 0) 65 ⟨0, 0⟩)
        ((exampleFont false 0).cellIndex ⟨0, 0⟩ 0 4) = some (255 - 6) ∧
    exampleBytes 8 &&& 0x80 ≠ 0 ∧
    atlasByte ((exampleFont false 1).blitFace (exampleFace FT_PIXEL_MODE_MONO 0 2) 65 ⟨0, 0⟩)
        ((exampleFont false 1).cellIndex ⟨0, 0⟩ 0 0) = some 9 ∧
    atlasByte ((exampleFont false 1).blitFace (exampleFace FT_PIXEL_MODE_GRAY 0 2) 65 ⟨0, 0⟩)
        ((exampleFont false 1).cellIndex ⟨0, 0⟩ 0 0) = some (255 - 8) := by
  refine ⟨?_, ?_, ?_, ?_, ?_, ?_, ?_, ?_⟩ <;> decide

/-! ## Overlay fonts: glyph fallback -/

theorem loadFaceAt_frame (f f1 : Font) (face : Face) (c : Nat) (apos : AtlasPos)
    (h : f.loadFaceAt face c apos = Except.ok f1) :
    f1.overlay = f.overlay ∧ f1.dwidth = f.dwidth ∧ f1.px = f.px ∧ f1.py = f.py ∧
    f1.baseline = f.baseline ∧ f1.nx = f.nx ∧ f1.ny = f.ny ∧ f1.atlasMap = f.atlasMap ∧
    f1.atlas_seq = f.atlas_seq ∧ ∀ i, ¬ f.InCell apos i → f1.atlasBuf i = f.atlasBuf i := by
  cases hg : face.loadChar c with
  | none =>
    simp [Font.loadFaceAt, Font.blitFace, hg] at h
  | some glyph =>
    by_cases hmode : glyph.bitmap.pixel_mode = FT_PIXEL_MODE_MONO ∨
        glyph.bitmap.pixel_mode = FT_PIXEL_MODE_GRAY
    · obtain ⟨b, hb, _, _, hm⟩ := blitFace_confined f face c apos glyph hg hmode
      unfold Font.loadFaceAt at h
      rw [hb] at h
      simp only [Except.ok.injEq] at h
      subst h
      exact ⟨rfl, rfl, rfl, rfl, rfl, rfl, rfl, rfl, rfl, hm⟩
    · have h1 : ¬ glyph.bitmap.pixel_mode = FT_PIXEL_MODE_MONO := fun e => hmode (Or.inl e)
      have h2 : ¬ glyph.bitmap.pixel_mode = FT_PIXEL_MODE_GRAY := fun e => hmode (Or.inr e)
      simp [Font.loadFaceAt, Font.blitFace, hg, h1, h2] at h

theorem balanceLoop_fuel_succ (n px py : Nat) :
    ∀ (fuel nx ny : Nat) (r : Nat × Nat), balanceLoop fuel n px py nx ny = some r →
      balanceLoop (fuel + 1) n px py nx ny = some r := by
  intro fuel
  induction fuel with
  | zero =>
    intro nx ny r h
    simp [balanceLoop] at h
  | succ fuel ih =>
    intro nx ny r h
    unfold balanceLoop at h ⊢
    by_cases hc : nx * ny < n
    · rw [if_pos hc] at h ⊢
      by_cases hb : px * nx < py * ny
      · rw [if_pos hb] at h ⊢
        exact ih _ _ r h
      · rw [if_neg hb] at h ⊢
        exact ih _ _ r h
    · rw [if_neg hc] at h ⊢
      exact h

theorem balanceLoop_fuel_le (n px py nx ny : Nat) (r : Nat × Nat) (fuel : Nat)
    (h : balanceLoop fuel n px py nx ny = some r) :
    ∀ fuel2, fuel ≤ fuel2 → balanceLoop fuel2 n px py nx ny = some r := by
  intro fuel2 hle
  induction fuel2 with
  | zero =>
    have e : fuel = 0 := by omega
    rw [e] at h
    exact h
  | succ m ih =>
    by_cases e : fuel = m + 1
    · rw [e] at h
      exact h
    · exact balanceLoop_fuel_succ n px py m nx ny r (ih (by omega))

/-- C15: for every slot count `n ≥ 1`, cell size `px, py ≥ 1` and starting pair
`(nx, ny)` of natural numbers, zero included, the balancing loop of
`Font::load` terminates: there is a pair it ends with after at most `2 * n + 3`
evaluations of its condition, and with any larger number of evaluations
allowed it ends with the same pair; that pair has `nx * ny ≥ n`. -/
theorem balanceLoop_total (n px py nx ny : Nat) (_hn : 1 ≤ n) (_hpx : 1 ≤ px) (hpy : 1 ≤ py) :
    ∃ r : Nat × Nat, n ≤ r.1 * r.2 ∧
      ∀ fuel, 2 * n + 3 ≤ fuel → balanceLoop fuel n px py nx ny = some r := by
  have hm : balanceMeasure n nx ny < 2 * n + 3 := by
    unfold balanceMeasure
    split <;> split <;> omega
  obtain ⟨rx, ry, hr, hge⟩ := balanceLoop_terminates py hpy n px (2 * n + 3) nx ny hm
  exact ⟨(rx, ry), hge, fun fuel hf => balanceLoop_fuel_le n px py nx ny (rx, ry) _ hr fuel hf⟩

/-- The loop for 95 slots of 8×16 pixels, started from `(0, 0)`. -/
theorem balanceLoop_total_witness :
    ∃ r : Nat × Nat, 95 ≤ r.1 * r.2 ∧
      ∀ fuel, 2 * 95 + 3 ≤ fuel → balanceLoop fuel 95 8 16 0 0 = some r :=
  balanceLoop_total 95 8 16 0 0 (by decide) (by decide) (by decide)

/-! ## `Font::isLoadableChar` -/

/-- C11, as stated, fails: the combining grave accent `0x300` has display width
`0`, it is neither marker and lies in the Basic Multilingual Plane, and
`isLoadableChar` admits it to a normal font, whose width class is `1`. -/
theorem isLoadableChar_zero_width :
    ¬ ((0x300 ≠ exampleWidthEnv.Missing_Glyph_Marker ∧
        0x300 ≠ exampleWidthEnv.Unicode_Replacement_Character ∧ 0x300 ≤ 0xFFFF ∧
        (exampleFont false 0).dwidth = false) →
      ((exampleFont false 0).isLoadableChar exampleWidthEnv 0x300 = true ↔
        exampleWidthEnv.wcwidth 0x300 = 1)) := by
  decide

/-- C11, amended: `isLoadableChar (c)` is true when `c` is `Missing_Glyph_Marker`
or `Unicode_Replacement_Character`; it is false when `c > 0xFFFF` and `c` is
neither marker; for every other `c` it is true exactly when the font is
double-width and `wcwidth (c)` is `2`, or the font is not double-width and
`wcwidth (c)` is less than `2` (width `1`, `0`, or `-1` for a non-printable
character). -/
theorem isLoadableChar_spec (env : Env) (f : Font) (c : Nat) :
    ((c = env.Missing_Glyph_Marker ∨ c = env.Unicode_Replacement_Character) →
      f.isLoadableChar env c = true) ∧
    (c ≠ env.Missing_Glyph_Marker → c ≠ env.Unicode_Replacement_Character → c > 0xFFFF →
      f.isLoadableChar env c = false) ∧
    (c ≠ env.Missing_Glyph_Marker → c ≠ env.Unicode_Replacement_Character → c ≤ 0xFFFF →
      (f.isLoadableChar env c = true ↔
        (f.dwidth = true ∧ env.wcwidth c = 2) ∨ (f.dwidth = false ∧ env.wcwidth c < 2))) := by
  refine ⟨?_, ?_, ?_⟩
  · intro h
    unfold Font.isLoadableChar
    rcases h with h | h
    · rw [if_pos h]
    · by_cases h1 : c = env.Missing_Glyph_Marker
      · rw [if_pos h1]
      · rw [if_neg h1, if_pos h]
  · intro h1 h2 h3
    unfold Font.isLoadableChar
    rw [if_neg h1, if_neg h2, if_pos h3]
  · intro h1 h2 h3
    unfold Font.isLoadableChar
    rw [if_neg h1, if_neg h2, if_neg (by omega)]
    cases hd : f.dwidth <;> simp

/-- The three cases at the combining grave accent, for a normal font. -/
theorem isLoadableChar_spec_witness :
    ((0x300 = exampleWidthEnv.Missing_Glyph_Marker ∨
        0x300 = exampleWidthEnv.Unicode_Replacement_Character) →
      (exampleFont false 0).isLoadableChar exampleWidthEnv 0x300 = true) ∧
    (0x300 ≠ exampleWidthEnv.Missing_Glyph_Marker →
      0x300 ≠ exampleWidthEnv.Unicode_Replacement_Character → 0x300 > 0xFFFF →
      (exampleFont false 0).isLoadableChar exampleWidthEnv 0x300 = false) ∧
    (0x300 ≠ exampleWidthEnv.Missing_Glyph_Marker →
      0x300 ≠ exampleWidthEnv.Unicode_Replacement_Character → 0x300 ≤ 0xFFFF →
      ((exampleFont false 0).isLoadableChar exampleWidthEnv 0x300 = true ↔
        ((exampleFont false 0).dwidth = true ∧ exampleWidthEnv.wcwidth 0x300 = 2) ∨
        ((exampleFont false 0).dwidth = false ∧ exampleWidthEnv.wcwidth 0x300 < 2))) :=
  isLoadableChar_spec exampleWidthEnv (exampleFont false 0) 0x300

/-! ## The mapping image on the surrogate and noncharacter ranges -/

theorem mappingImage_eq (urc mgm : Nat) (m : AtlasMap) :
    setupAtlasMappingTexture urc mgm m
      = fillSupported m (fillDefaults ((AtlasMap.find m urc).getD ⟨0, 0⟩)
          ((AtlasMap.find m mgm).getD ⟨0, 0⟩) (256 * 256)
          (List.replicate (2 * 256 * 256) 0)) := by
  unfold setupAtlasMappingTexture
  cases AtlasMap.find m urc <;> cases AtlasMap.find m mgm <;> rfl

theorem mappingImage_present (urc mgm : Nat) (m : AtlasMap) (hnd : (m.map Prod.fst).Nodup)
    (k : Nat) (hk : k < 65536) (p : AtlasPos) (hp : AtlasMap.find m k = some p) :
    (setupAtlasMappingTexture urc mgm m)[2 * k]? = some p.x ∧
    (setupAtlasMappingTexture urc mgm m)[2 * k + 1]? = some p.y := by
  rw [mappingImage_eq]
  apply fillSupported_present m k p hnd hp
  rw [fillDefaults_length, List.length_replicate]
  omega

theorem mappingImage_absent_replacement (urc mgm : Nat) (m : AtlasMap) (k : Nat)
    (hk : k < 65536) (hrange : (0xD800 ≤ k ∧ k < 0xE000) ∨ 0xFFFE ≤ k)
    (hnone : AtlasMap.find m k = none) :
    (setupAtlasMappingTexture urc mgm m)[2 * k]?
      = some ((AtlasMap.find m urc).getD ⟨0, 0⟩).x ∧
    (setupAtlasMappingTexture urc mgm m)[2 * k + 1]?
      = some ((AtlasMap.find m urc).getD ⟨0, 0⟩).y := by
  rw [mappingImage_eq]
  have h1 := fillSupported_absent m k hnone
    (fillDefaults ((AtlasMap.find m urc).getD ⟨0, 0⟩) ((AtlasMap.find m mgm).getD ⟨0, 0⟩)
      (256 * 256) (List.replicate (2 * 256 * 256) 0))
  have h2 := fillDefaults_get ((AtlasMap.find m urc).getD ⟨0, 0⟩)
    ((AtlasMap.find m mgm).getD ⟨0, 0⟩) (List.replicate (2 * 256 * 256) 0) (256 * 256)
    (by rw [List.length_replicate]) k (by omega)
  have hd : defaultAtlasPos ((AtlasMap.find m urc).getD ⟨0, 0⟩)
      ((AtlasMap.find m mgm).getD ⟨0, 0⟩) k = (AtlasMap.find m urc).getD ⟨0, 0⟩ := by
    unfold defaultAtlasPos
    rw [if_pos (by omega)]
  rw [h1.1, h1.2, h2.1, h2.2, hd]
  exact ⟨rfl, rfl⟩

/-- C12, as stated, fails: a font whose atlas map has an entry for the
noncharacter `0xFFFE`, at slot `(5, 7)`, and none for the replacement
character.  The entry of `0xFFFE` in the mapping image is `(5, 7)`, not the
replacement default `(0, 0)`. -/
theorem mappingImage_loaded_noncharacter :
    (setupAtlasMappingTexture 0xFFFD 0 [(0xFFFE, ⟨5, 7⟩)])[2 * 0xFFFE]? = some 5 ∧
    (setupAtlasMappingTexture 0xFFFD 0 [(0xFFFE, ⟨5, 7⟩)])[2 * 0xFFFE + 1]? = some 7 ∧
    ¬ ((setupAtlasMappingTexture 0xFFFD 0 [(0xFFFE, ⟨5, 7⟩)])[2 * 0xFFFE]?
          = some ((AtlasMap.find [(0xFFFE, ⟨5, 7⟩)] 0xFFFD).getD ⟨0, 0⟩).x ∧
        (setupAtlasMappingTexture 0xFFFD 0 [(0xFFFE, ⟨5, 7⟩)])[2 * 0xFFFE + 1]?
          = some ((AtlasMap.find [(0xFFFE, ⟨5, 7⟩)] 0xFFFD).getD ⟨0, 0⟩).y) := by
  have h := mappingImage_present 0xFFFD 0 [(0xFFFE, ⟨5, 7⟩)] (by decide) 0xFFFE (by decide)
    ⟨5, 7⟩ (by decide)
  refine ⟨h.1, h.2, ?_⟩
  rw [h.1, h.2]
  decide

/-- C12, amended: for an atlas map with distinct keys in `0..0xFFFF` and every
codepoint `k ≤ 0xFFFF` with `0xD800 ≤ k < 0xE000` or `k ≥ 0xFFFE`: when `k` is
not a key of the atlas map, its entry in the mapping image is the replacement
default, the `AtlasPos` of `Unicode_Replacement_Character` or `(0, 0)` when
that marker is not a key; when `k` is a key, its entry is the `AtlasPos` the
map gives `k`. -/
theorem mappingImage_replacement_ranges (urc mgm : Nat) (m : AtlasMap)
    (_hkeys : ∀ e ∈ m, e.1 ≤ 0xFFFF) (hnd : (m.map Prod.fst).Nodup)
    (k : Nat) (hk : k ≤ 0xFFFF) (hrange : (0xD800 ≤ k ∧ k < 0xE000) ∨ 0xFFFE ≤ k) :
    (AtlasMap.find m k = none →
      (setupAtlasMappingTexture urc mgm m)[2 * k]?
        = some ((AtlasMap.find m urc).getD ⟨0, 0⟩).x ∧
      (setupAtlasMappingTexture urc mgm m)[2 * k + 1]?
        = some ((AtlasMap.find m urc).getD ⟨0, 0⟩).y) ∧
    (∀ p, AtlasMap.find m k = some p →
      (setupAtlasMappingTexture urc mgm m)[2 * k]? = some p.x ∧
      (setupAtlasMappingTexture urc mgm m)[2 * k + 1]? = some p.y) :=
  ⟨fun hnone => mappingImage_absent_replacement urc mgm m k (by omega) hrange hnone,
   fun p hp => mappingImage_present urc mgm m hnd k (by omega) p hp⟩

/-- The entry of the noncharacter `0xFFFF` for a font with glyphs for the
missing-glyph marker, for `A` and for the replacement character. -/
theorem mappingImage_replacement_ranges_witness :
    (AtlasMap.find [(0, ⟨1, 0⟩), (65, ⟨2, 0⟩), (0xFFFD, ⟨3, 0⟩)] 0xFFFF = none →
      (setupAtlasMappingTexture 0xFFFD 0
        [(0, ⟨1, 0⟩), (65, ⟨2, 0⟩), (0xFFFD, ⟨3, 0⟩)])[2 * 0xFFFF]?
        = some ((AtlasMap.find [(0, ⟨1, 0⟩), (65, ⟨2, 0⟩), (0xFFFD, ⟨3, 0⟩)] 0xFFFD).getD
            ⟨0, 0⟩).x ∧
      (setupAtlasMappingTexture 0xFFFD 0
        [(0, ⟨1, 0⟩), (65, ⟨2, 0⟩), (0xFFFD, ⟨3, 0⟩)])[2 * 0xFFFF + 1]?
        = some ((AtlasMap.find [(0, ⟨1, 0⟩), (65, ⟨2, 0⟩), (0xFFFD, ⟨3, 0⟩)] 0xFFFD).getD
            ⟨0, 0⟩).y) ∧
    (∀ p, AtlasMap.find [(0, ⟨1, 0⟩), (65, ⟨2, 0⟩), (0xFFFD, ⟨3, 0⟩)] 0xFFFF = some p →
      (setupAtlasMappingTexture 0xFFFD 0
        [(0, ⟨1, 0⟩), (65, ⟨2, 0⟩), (0xFFFD, ⟨3, 0⟩)])[2 * 0xFFFF]? = some p.x ∧
      (setupAtlasMappingTexture 0xFFFD 0
        [(0, ⟨1, 0⟩), (65, ⟨2, 0⟩), (0xFFFD, ⟨3, 0⟩)])[2 * 0xFFFF + 1]? = some p.y) :=
  mappingImage_replacement_ranges 0xFFFD 0 [(0, ⟨1, 0⟩), (65, ⟨2, 0⟩), (0xFFFD, ⟨3, 0⟩)]
    (by decide) (by decide) 0xFFFF (by decide) (by decide)

/-! ## `Font::loadFace (face, c)`: sequential atlas slots -/

theorem find_assign_same (m : AtlasMap) (c : Nat) (p : AtlasPos) :
    AtlasMap.find (AtlasMap.assign m c p) c = some p := by
  induction m with
  | nil => simp [AtlasMap.assign, AtlasMap.find, List.lookup]
  | cons e m ih =>
    obtain ⟨k, v⟩ := e
    unfold AtlasMap.assign
    by_cases h1 : c < k
    · rw [if_pos h1]
      simp [AtlasMap.find, List.lookup]
    · rw [if_neg h1]
      by_cases h2 : c = k
      · rw [if_pos h2]
        simp [AtlasMap.find, List.lookup, h2]
      · rw [if_neg h2]
        unfold AtlasMap.find at ih ⊢
        rw [List.lookup_cons]
        have hb : (c == k) = false := by simpa using h2
        rw [hb]
        exact ih

theorem find_assign_other (m : AtlasMap) (c d : Nat) (p : AtlasPos) (hne : d ≠ c) :
    AtlasMap.find (AtlasMap.assign m c p) d = AtlasMap.find m d := by
  have hdc : (d == c) = false := by simpa using hne
  induction m with
  | nil => simp [AtlasMap.assign, AtlasMap.find, List.lookup, hdc]
  | cons e m ih =>
    obtain ⟨k, v⟩ := e
    unfold AtlasMap.assign
    by_cases h1 : c < k
    · rw [if_pos h1]
      unfold AtlasMap.find
      rw [List.lookup_cons, hdc]
    · rw [if_neg h1]
      by_cases h2 : c = k
      · rw [if_pos h2]
        have hdk : (d == k) = false := by rw [← h2]; exact hdc
        unfold AtlasMap.find
        rw [List.lookup_cons, List.lookup_cons, hdk]
      · rw [if_neg h2]
        unfold AtlasMap.find at ih ⊢
        rw [List.lookup_cons, List.lookup_cons, ih]

theorem slot_narrowing (nx ny s : Nat) (hnx : 1 ≤ nx) (hnx2 : nx ≤ 255) (hny : ny ≤ 255)
    (hs : s < nx * ny) :
    (s / nx) % 256 = s / nx ∧
    (((s : Int) - (nx : Int) * (((s / nx) % 256 : Nat) : Int)) % 256).toNat = s % nx ∧
    s % nx < nx ∧ s / nx < ny := by
  have hdiv : s / nx < ny := (Nat.div_lt_iff_lt_mul (by omega)).mpr (by rw [Nat.mul_comm]; exact hs)
  have hmod : s % nx < nx := Nat.mod_lt _ (by omega)
  have e1 : (s / nx) % 256 = s / nx := Nat.mod_eq_of_lt (by omega)
  refine ⟨e1, ?_, hmod, hdiv⟩
  rw [e1]
  have e2 : nx * (s / nx) + s % nx = s := Nat.div_add_mod s nx
  have e3 : (s : Int) - (nx : Int) * ((s / nx : Nat) : Int) = ((s % nx : Nat) : Int) := by
    have : ((nx * (s / nx) + s % nx : Nat) : Int) = (s : Int) := by rw [e2]
    push_cast at this
    push_cast
    omega
  rw [e3]
  omega

theorem slot_injective (nx s1 s2 : Nat)
    (h : (⟨s1 % nx, s1 / nx⟩ : AtlasPos) = ⟨s2 % nx, s2 / nx⟩) : s1 = s2 := by
  simp only [AtlasPos.mk.injEq] at h
  have e1 := Nat.div_add_mod s1 nx
  have e2 := Nat.div_add_mod s2 nx
  rw [h.1, h.2] at e1
  omega

theorem loadFace_fields (f f1 : Font) (face : Face) (c : Nat)
    (h : f.loadFace face c = Except.ok f1) :
    f1.overlay = f.overlay ∧ f1.dwidth = f.dwidth ∧ f1.nx = f.nx ∧ f1.ny = f.ny ∧
    f1.atlas_seq = f.atlas_seq + 1 ∧
    f1.atlasMap = AtlasMap.assign f.atlasMap c
      { x := (((f.atlas_seq : Int)
                - (f.nx : Int) * (((f.atlas_seq / f.nx) % 256 : Nat) : Int)) % 256).toNat,
        y := (f.atlas_seq / f.nx) % 256 } := by
  unfold Font.loadFace at h
  simp only [] at h
  cases hr : f.loadFaceAt face c
      { x := (((f.atlas_seq : Int)
                - (f.nx : Int) * (((f.atlas_seq / f.nx) % 256 : Nat) : Int)) % 256).toNat,
        y := (f.atlas_seq / f.nx) % 256 } with
  | error e =>
    rw [hr] at h
    simp at h
  | ok f0 =>
    rw [hr] at h
    simp only [Except.ok.injEq] at h
    obtain ⟨b1, b2, _, _, _, b6, b7, b8, b9, _⟩ := loadFaceAt_frame f f0 face c _ hr
    subst h
    exact ⟨b1, b2, b6, b7, by simp only [b9], by simp only [b8]⟩

theorem loadFace_succeeds (f : Font) (face : Face) (c : Nat) (glyph : GlyphSlot)
    (hglyph : face.loadChar c = some glyph)
    (hmode : glyph.bitmap.pixel_mode = FT_PIXEL_MODE_MONO ∨
      glyph.bitmap.pixel_mode = FT_PIXEL_MODE_GRAY) :
    ∃ f1, f.loadFace face c = Except.ok f1 := by
  obtain ⟨b, hb, _⟩ := blitFace_confined f face c
    { x := (((f.atlas_seq : Int)
              - (f.nx : Int) * (((f.atlas_seq / f.nx) % 256 : Nat) : Int)) % 256).toNat,
      y := (f.atlas_seq / f.nx) % 256 } glyph hglyph hmode
  unfold Font.loadFace Font.loadFaceAt
  simp only []
  rw [hb]
  exact ⟨_, rfl⟩

theorem loadFace_slot (f f1 : Font) (face : Face) (c : Nat)
    (hnx : 1 ≤ f.nx) (hnx2 : f.nx ≤ 255) (hny : f.ny ≤ 255)
    (hs : f.atlas_seq < f.nx * f.ny) (h : f.loadFace face c = Except.ok f1) :
    f1.atlasMap = AtlasMap.assign f.atlasMap c ⟨f.atlas_seq % f.nx, f.atlas_seq / f.nx⟩ := by
  obtain ⟨_, _, _, _, _, hm⟩ := loadFace_fields f f1 face c h
  obtain ⟨e1, e2, _, _⟩ := slot_narrowing f.nx f.ny f.atlas_seq hnx hnx2 hny hs
  rw [hm, e2, e1]

theorem isLoadableChar_congr (env : Env) (f g : Font) (c : Nat) (h : g.dwidth = f.dwidth) :
    g.isLoadableChar env c = f.isLoadableChar env c := by
  unfold Font.isLoadableChar
  rw [h]

theorem loadGlyphs_primary_slots (env : Env) (face : Face) :
    ∀ (cs : List Nat) (f f2 : Font), f.overlay = false → cs.Nodup →
      1 ≤ f.nx → f.nx ≤ 255 → f.ny ≤ 255 →
      f.atlas_seq + (cs.filter (fun c => f.isLoadableChar env c)).length ≤ f.nx * f.ny →
      Font.loadGlyphs env face cs f = Except.ok f2 →
      f.atlas_seq ≤ f2.atlas_seq ∧ f2.atlas_seq ≤ f.nx * f.ny ∧
      (∀ c ∈ cs, f.isLoadableChar env c = true →
        ∃ s, f.atlas_seq ≤ s ∧ s < f2.atlas_seq ∧
          AtlasMap.find f2.atlasMap c = some ⟨s % f.nx, s / f.nx⟩) ∧
      (∀ c, c ∉ cs → AtlasMap.find f2.atlasMap c = AtlasMap.find f.atlasMap c) ∧
      (∀ c1 ∈ cs, ∀ c2 ∈ cs, f.isLoadableChar env c1 = true →
        f.isLoadableChar env c2 = true → c1 ≠ c2 →
        AtlasMap.find f2.atlasMap c1 ≠ AtlasMap.find f2.atlasMap c2) := by
  intro cs
  induction cs with
  | nil =>
    intro f f2 _ _ _ _ _ hcount h
    simp only [Font.loadGlyphs, Except.ok.injEq] at h
    subst h
    simp only [List.filter_nil, List.length_nil, Nat.add_zero] at hcount
    refine ⟨le_refl _, hcount, ?_, fun _ _ => rfl, ?_⟩
    · intro c hc
      simp at hc
    · intro c1 hc1
      simp at hc1
  | cons c cs ih =>
    intro f f2 hov hnd hnx hnx2 hny hcount h
    have hnd2 : cs.Nodup := (List.nodup_cons.mp hnd).2
    have hcn : c ∉ cs := (List.nodup_cons.mp hnd).1
    unfold Font.loadGlyphs at h
    by_cases hl : f.isLoadableChar env c = true
    · rw [if_pos hl] at h
      have hov2 : ¬ (f.overlay = true) := by rw [hov]; decide
      rw [if_neg hov2] at h
      rw [List.filter_cons_of_pos (by simpa using hl), List.length_cons] at hcount
      cases hr : f.loadFace face c with
      | error e =>
        rw [hr] at h
        simp at h
      | ok f1 =>
        rw [hr] at h
        dsimp only at h
        have hs : f.atlas_seq < f.nx * f.ny := by omega
        obtain ⟨b1, b2, b3, b4, b5, _⟩ := loadFace_fields f f1 face c hr
        have hmap := loadFace_slot f f1 face c hnx hnx2 hny hs hr
        have hfilt : (cs.filter (fun c => f1.isLoadableChar env c))
            = (cs.filter (fun c => f.isLoadableChar env c)) := by
          congr 1
          funext d
          exact isLoadableChar_congr env f f1 d b2
        obtain ⟨a1, a2, a3, a4, a5⟩ := ih f1 f2 (by rw [b1]; exact hov) hnd2
          (by rw [b3]; exact hnx) (by rw [b3]; exact hnx2) (by rw [b4]; exact hny)
          (by rw [hfilt, b3, b4, b5]; omega) h
        rw [b3, b4] at a2
        rw [b5] at a1
        have hfc : AtlasMap.find f2.atlasMap c
            = some ⟨f.atlas_seq % f.nx, f.atlas_seq / f.nx⟩ := by
          rw [a4 c hcn, hmap, find_assign_same]
        have hrest : ∀ d ∈ cs, f.isLoadableChar env d = true →
            ∃ s, f.atlas_seq + 1 ≤ s ∧ s < f2.atlas_seq ∧
              AtlasMap.find f2.atlasMap d = some ⟨s % f.nx, s / f.nx⟩ := by
          intro d hd hld
          obtain ⟨s, s1, s2, s3⟩ := a3 d hd (by rw [isLoadableChar_congr env f f1 d b2]; exact hld)
          rw [b3] at s3
          rw [b5] at s1
          exact ⟨s, s1, s2, s3⟩
        refine ⟨by omega, a2, ?_, ?_, ?_⟩
        · intro d hd hld
          rcases List.mem_cons.mp hd with e | hd2
          · rw [e]
            exact ⟨f.atlas_seq, le_refl _, by omega, hfc⟩
          · obtain ⟨s, s1, s2, s3⟩ := hrest d hd2 hld
            exact ⟨s, by omega, s2, s3⟩
        · intro d hd
          have hdc : d ≠ c := fun e => hd (e ▸ List.mem_cons_self _ _)
          have hd2 : d ∉ cs := fun e => hd (List.mem_cons_of_mem _ e)
          rw [a4 d hd2, hmap, find_assign_other _ _ _ _ hdc]
        · intro c1 hc1 c2 hc2 hl1 hl2 hne
          have hdiff : ∀ d ∈ cs, f.isLoadableChar env d = true →
              AtlasMap.find f2.atlasMap c ≠ AtlasMap.find f2.atlasMap d := by
            intro d hd hld heq
            obtain ⟨s, s1, _, s3⟩ := hrest d hd hld
            rw [hfc, s3] at heq
            have := slot_injective f.nx f.atlas_seq s (Option.some.inj heq)
            omega
          rcases List.mem_cons.mp hc1 with e1 | h1
          · rcases List.mem_cons.mp hc2 with e2 | h2
            · exact absurd (e1.trans e2.symm) hne
            · rw [e1]
              exact hdiff c2 h2 hl2
          · rcases List.mem_cons.mp hc2 with e2 | h2
            · rw [e2]
              exact fun heq => hdiff c1 h1 hl1 heq.symm
            · exact a5 c1 h1 c2 h2
                (by rw [isLoadableChar_congr env f f1 c1 b2]; exact hl1)
                (by rw [isLoadableChar_congr env f f1 c2 b2]; exact hl2) hne
    · rw [if_neg hl] at h
      rw [List.filter_cons_of_neg (by simpa using hl)] at hcount
      obtain ⟨a1, a2, a3, a4, a5⟩ := ih f f2 hov hnd2 hnx hnx2 hny hcount h
      refine ⟨a1, a2, ?_, ?_, ?_⟩
      · intro d hd hld
        rcases List.mem_cons.mp hd with e | hd2
        · rw [e] at hld
          exact absurd hld hl
        · exact a3 d hd2 hld
      · intro d hd
        exact a4 d (fun e => hd (List.mem_cons_of_mem _ e))
      · intro c1 hc1 c2 hc2 hl1 hl2 hne
        rcases List.mem_cons.mp hc1 with e1 | h1
        · rw [e1] at hl1
          exact absurd hl1 hl
        · rcases List.mem_cons.mp hc2 with e2 | h2
          · rw [e2] at hl2
            exact absurd hl2 hl
          · exact a5 c1 h1 c2 h2 hl1 hl2 hne

/-- C14: for an atlas geometry with `1 ≤ nx ≤ 255`, `ny ≤ 255` and a sequence
number `s < nx * ny`, the primary-mode `Font::loadFace (face, c)` of a glyph
that loads in mono or gray mode returns, maps `c` in the atlas map to the
`AtlasPos` `(s mod nx, s div nx)` and advances the sequence number to `s + 1`;
that position has `x < nx`, `y < ny` and both fit a byte; a call at another
sequence number below `nx * ny` gives a different `AtlasPos`; and when the
loading loop of a primary font runs over distinct charcodes with enough free
slots from `s` on, any two different codepoints it loads end up with different
slots in its atlas map. -/
theorem loadFace_assigns_slot (f : Font) (face : Face) (c : Nat) (glyph : GlyphSlot)
    (hnx : 1 ≤ f.nx) (hnx2 : f.nx ≤ 255) (hny : f.ny ≤ 255)
    (hs : f.atlas_seq < f.nx * f.ny) (hglyph : face.loadChar c = some glyph)
    (hmode : glyph.bitmap.pixel_mode = FT_PIXEL_MODE_MONO ∨
      glyph.bitmap.pixel_mode = FT_PIXEL_MODE_GRAY) :
    ∃ f1, f.loadFace face c = Except.ok f1 ∧
      AtlasMap.find f1.atlasMap c = some ⟨f.atlas_seq % f.nx, f.atlas_seq / f.nx⟩ ∧
      f1.atlas_seq = f.atlas_seq + 1 ∧
      f.atlas_seq % f.nx < f.nx ∧ f.atlas_seq / f.nx < f.ny ∧
      f.atlas_seq % f.nx ≤ 255 ∧ f.atlas_seq / f.nx ≤ 255 ∧
      (∀ (g g1 : Font) (face2 : Face) (c2 : Nat), g.nx = f.nx → g.ny = f.ny →
        g.atlas_seq < f.nx * f.ny → g.atlas_seq ≠ f.atlas_seq →
        g.loadFace face2 c2 = Except.ok g1 →
        AtlasMap.find g1.atlasMap c2 ≠ AtlasMap.find f1.atlasMap c) ∧
      (∀ (env : Env) (cs : List Nat) (f2 : Font), f.overlay = false → cs.Nodup →
        f.atlas_seq + (cs.filter (fun d => f.isLoadableChar env d)).length ≤ f.nx * f.ny →
        Font.loadGlyphs env face cs f = Except.ok f2 →
        ∀ c1 ∈ cs, ∀ c2 ∈ cs, f.isLoadableChar env c1 = true →
          f.isLoadableChar env c2 = true → c1 ≠ c2 →
          ∃ p1 p2, AtlasMap.find f2.atlasMap c1 = some p1 ∧
            AtlasMap.find f2.atlasMap c2 = some p2 ∧ p1 ≠ p2) := by
  obtain ⟨f1, hf1⟩ := loadFace_succeeds f face c glyph hglyph hmode
  obtain ⟨_, _, _, _, hseq, _⟩ := loadFace_fields f f1 face c hf1
  have hmap := loadFace_slot f f1 face c hnx hnx2 hny hs hf1
  obtain ⟨_, _, hx, hy⟩ := slot_narrowing f.nx f.ny f.atlas_seq hnx hnx2 hny hs
  have hfind : AtlasMap.find f1.atlasMap c
      = some ⟨f.atlas_seq % f.nx, f.atlas_seq / f.nx⟩ := by
    rw [hmap, find_assign_same]
  refine ⟨f1, hf1, hfind, hseq, hx, hy, by omega, by omega, ?_, ?_⟩
  · intro g g1 face2 c2 gnx gny gs gne hg heq
    have hgmap := loadFace_slot g g1 face2 c2 (by rw [gnx]; exact hnx) (by rw [gnx]; exact hnx2)
      (by rw [gny]; exact hny) (by rw [gnx, gny]; exact gs) hg
    rw [hfind, hgmap, find_assign_same, gnx] at heq
    exact gne (slot_injective f.nx _ _ (Option.some.inj heq))
  · intro env cs f2 hov hnd hcount hrun c1 hc1 c2 hc2 hl1 hl2 hne
    obtain ⟨_, _, a3, _, a5⟩ :=
      loadGlyphs_primary_slots env face cs f f2 hov hnd hnx hnx2 hny hcount hrun
    obtain ⟨s1, _, _, e1⟩ := a3 c1 hc1 hl1
    obtain ⟨s2, _, _, e2⟩ := a3 c2 hc2 hl2
    refine ⟨_, _, e1, e2, ?_⟩
    intro heq
    apply a5 c1 hc1 c2 hc2 hl1 hl2 hne
    rw [e1, e2, heq]

/-- The empty example font loads `A` into the slot `(1, 0)` of sequence number
1, and its loading loop over `A` and `B` gives the two different slots. -/
theorem loadFace_assigns_slot_witness :
    ∃ f1, exampleEmptyFont.loadFace exampleFace2 65 = Except.ok f1 ∧
      AtlasMap.find f1.atlasMap 65 = some ⟨1, 0⟩ ∧ f1.atlas_seq = 2 ∧
      ∃ f2, Font.loadGlyphs exampleEnv exampleFace2 [65, 66] exampleEmptyFont
          = Except.ok f2 ∧
        ∃ p1 p2, AtlasMap.find f2.atlasMap 65 = some p1 ∧
          AtlasMap.find f2.atlasMap 66 = some p2 ∧ p1 ≠ p2 := by
  obtain ⟨f1, h1, h2, h3, _, _, _, _, _, hrun⟩ :=
    loadFace_assigns_slot exampleEmptyFont exampleFace2 65 (exampleGlyph FT_PIXEL_MODE_GRAY 0 0)
      (by decide) (by decide) (by decide) (by decide) rfl (Or.inr rfl)
  refine ⟨f1, h1, h2, h3, _, rfl, ?_⟩
  exact hrun exampleEnv [65, 66] _ rfl (by decide) (by decide) rfl
    65 (by decide) 66 (by decide) (by decide) (by decide) (by decide)

/-! ## Overlay blits: the zero-fill of the cell -/

end Zutty
